import Mathlib

/-!
# mpcextract: a shallow embedding of `src/mpcextract.cpp`

The C++ program opens a Monkeystone MPC container, decodes its header and
directory (`MPCFile::MPCFile`) and copies every payload to a file named after
its directory entry (`MPCFile::extractFile`, driven by `main`).

Modelling decisions, each stated where the definition is given:

* bytes are `Fin 256`; `uint32_t` values are `Nat` decoded little-endian;
* `std::ifstream` is a record of file content, get position, `eofbit`,
  `failbit` and a log of the sizes requested by every `read` call;
* `std::ofstream` is a buffered stream: a record of path, open flag, the bytes
  taken so far, `failbit` and the number of bytes the device accepts; the file
  it leaves once closed is `OFStream.artifact`;
* a thrown `Exception` is the `error` side of `Except`;
* the indeterminate initial content of the member `num_files` is an explicit
  argument of the constructor, because the constructor uses it when the read
  of the entry count fails.
-/

namespace mpcextract

/-! ## Data model -/

/-- One octet of a file or of memory. -/
abbrev Byte := Fin 256

/-- Possible exit codes (`enum class Exit`). -/
inductive Exit where
  | OK
  | ERR
  | FTYPE
  | OPEN
  | READ
  | STAT
  | WRITE
deriving DecidableEq, Repr

/-- Model of the `std::ifstream` member `file`.  `reads` logs, in call order, the
size requested by every call of `read`. -/
structure IFStream where
  content : List Byte
  pos : Nat
  eofbit : Bool
  failbit : Bool
  reads : List Nat
deriving DecidableEq, Repr

namespace IFStream

/-- A freshly opened stream on a file with the given content. -/
def opened (content : List Byte) : IFStream :=
  { content := content, pos := 0, eofbit := false, failbit := false, reads := [] }

/-- A stream on which `open` was never called or did not succeed. -/
def closed : IFStream :=
  { content := [], pos := 0, eofbit := false, failbit := true, reads := [] }

/-- Model of `good()`: neither `eofbit` nor `failbit` is set. -/
def good (s : IFStream) : Bool := !s.eofbit && !s.failbit

/-- Model of `fail()`. -/
def fail (s : IFStream) : Bool := s.failbit

/-- Model of `read(buf, n)`.  The sentry refuses a stream that is not `good()` and sets
`failbit`; otherwise up to `n` bytes are extracted, and `eofbit` and `failbit`
are set when fewer than `n` were available.  The second component is the
sequence of bytes stored into the destination. -/
def read (s : IFStream) (n : Nat) : IFStream × List Byte :=
  if s.good then
    if ((s.content.drop s.pos).take n).length < n then
      ({ s with pos := s.pos + ((s.content.drop s.pos).take n).length,
                eofbit := true, failbit := true, reads := s.reads ++ [n] },
       (s.content.drop s.pos).take n)
    else
      ({ s with pos := s.pos + n, reads := s.reads ++ [n] },
       (s.content.drop s.pos).take n)
  else
    ({ s with failbit := true, reads := s.reads ++ [n] }, [])

/-- Model of `seekg(p)` with an absolute position: `eofbit` is cleared first, and the
position is set unless the stream has failed.  Seeking beyond the end of a
regular file succeeds. -/
def seekg (s : IFStream) (p : Nat) : IFStream :=
  if s.fail then { s with eofbit := false }
  else { s with pos := p, eofbit := false }

end IFStream

/-- Model of the `std::ofstream` local `outfile`.  `data` is the sequence of bytes the
stream has taken so far, in its put area or already handed to the device; `room` is the
number of bytes the device accepts. -/
structure OFStream where
  name : List Byte
  is_open : Bool
  room : Nat
  data : List Byte
  failbit : Bool
deriving DecidableEq, Repr

/-- The part of the file system that `extractFile` touches: for every path, `none` when
it cannot be opened for writing, `some room` when it can and the device
then accepts `room` bytes.  The container itself is not among these paths. -/
abbrev SinkEnv := List Byte → Option Nat

namespace OFStream

/-- Model of `std::ofstream outfile(path, out | binary)`: the file is created or truncated. -/
def opened (fs : SinkEnv) (path : List Byte) : OFStream :=
  match fs path with
  | none => { name := path, is_open := false, room := 0, data := [], failbit := true }
  | some r => { name := path, is_open := true, room := r, data := [], failbit := false }

/-- Model of `fail()`. -/
def fail (o : OFStream) : Bool := o.failbit

/-- Size of the put area of the file buffer (GNU libstdc++: `BUFSIZ - 1`). -/
def putArea : Nat := 8191

/-- A write of at least this many bytes goes to the device directly (GNU libstdc++). -/
def chunk : Nat := 1024

/-- Model of `write(buf, n)` on a buffered file stream.  A write that is smaller than
both `chunk` and the free part of the put area only stores its bytes, and cannot fail.
Any other write hands the put area and the new bytes to the device, and the stream fails
when the device does not accept them all.  The put area holds the bytes taken since the
last multiple of 8192, which is exact for the writes `extractFile` issues: 128 bytes each
until the last one. -/
def write (o : OFStream) (buf : List Byte) (n : Nat) : OFStream :=
  if o.failbit || !o.is_open then { o with failbit := true }
  else if n < min chunk (putArea - o.data.length % (putArea + 1)) then
    { o with data := o.data ++ buf.take n }
  else if o.data.length + n ≤ o.room then { o with data := o.data ++ buf.take n }
  else { o with data := o.data ++ buf.take n, failbit := true }

end OFStream

/-- Value of a `uint32_t` whose four bytes in memory are the first four of `b`
(little-endian host). -/
def le32 (b : List Byte) : Nat :=
  (b.getD 0 0).val + 256 * (b.getD 1 0).val + 65536 * (b.getD 2 0).val
    + 16777216 * (b.getD 3 0).val

/-- The four bytes in memory of a `uint32_t` (little-endian host). -/
def le32bytes (v : Nat) : List Byte :=
  [⟨v % 256, Nat.mod_lt _ (by decide)⟩, ⟨v / 256 % 256, Nat.mod_lt _ (by decide)⟩,
   ⟨v / 65536 % 256, Nat.mod_lt _ (by decide)⟩, ⟨v / 16777216 % 256, Nat.mod_lt _ (by decide)⟩]

/-- Memory after a `read` into it: the bytes received overwrite the front, the rest keeps
its old content. -/
def store (old got : List Byte) : List Byte := got ++ old.drop got.length

/-- Model of `strncmp(a, b, n)`: compares at most `n` characters and stops at the first
difference or at a NUL.  Only the sign of the result is meaningful. -/
def strncmp : List Byte → List Byte → Nat → Int
  | _, _, 0 => 0
  | a, b, n + 1 =>
    if a.headD 0 ≠ b.headD 0 then ((a.headD 0).val : Int) - ((b.headD 0).val : Int)
    else if a.headD 0 = 0 then 0
    else strncmp a.tail b.tail n

/-- The string literal "MPCU" with its terminating NUL. -/
def magic : List Byte := [77, 80, 67, 85, 0]

/-- MPC file header (`struct MPCHeader`). -/
structure MPCHeader where
  signature : List Byte
  dir_offset : Nat
  unknown : Nat
deriving DecidableEq, Repr

/-- Directory entry (`struct MPCDirEntry`). -/
structure MPCDirEntry where
  name : List Byte
  offset : Nat
  length : Nat
  unknown1 : Nat
  unknown2 : Nat
deriving DecidableEq, Repr

/-- The members of `class MPCFile`. -/
structure MPCFile where
  dir : List MPCDirEntry
  file : IFStream
  header : MPCHeader
  num_files : Nat
deriving DecidableEq, Repr

/-- A thrown `mpcextract::Exception`: the requested exit code, and the state of the
source stream at the throw. -/
structure Exception where
  exitcode : Exit
  file : IFStream
deriving DecidableEq, Repr

/-- What `stat` and `open` find at the path given to the constructor. -/
inductive Source where
  | missing
  | unreadable
  | readable (content : List Byte)
deriving DecidableEq, Repr

/-! ## MPCFile::MPCFile -/

/-- Body of the directory loop (lines 216-251): the five field reads of one entry, with
the `fail()` checks where the source has them (none between `unknown1` and
`unknown2`). -/
def readEntry (s : IFStream) : Except Exception (IFStream × MPCDirEntry) :=
  if (s.read 64).1.fail then .error ⟨.READ, (s.read 64).1⟩
  else if ((s.read 64).1.read 4).1.fail then .error ⟨.READ, ((s.read 64).1.read 4).1⟩
  else if (((s.read 64).1.read 4).1.read 4).1.fail then
    .error ⟨.READ, (((s.read 64).1.read 4).1.read 4).1⟩
  else if (((((s.read 64).1.read 4).1.read 4).1.read 4).1.read 4).1.fail then
    .error ⟨.READ, (((((s.read 64).1.read 4).1.read 4).1.read 4).1.read 4).1⟩
  else
    .ok ((((((s.read 64).1.read 4).1.read 4).1.read 4).1.read 4).1,
         { name := (s.read 64).2,
           offset := le32 ((s.read 64).1.read 4).2,
           length := le32 (((s.read 64).1.read 4).1.read 4).2,
           unknown1 := le32 ((((s.read 64).1.read 4).1.read 4).1.read 4).2,
           unknown2 := le32 (((((s.read 64).1.read 4).1.read 4).1.read 4).1.read 4).2 })

/-- The loop `for (int i = 0; i < num_files; i++)` (lines 214-252); the first argument
is the number of iterations still to run, `num_files - i`.  The comparison converts `i`
to `uint32_t`, so the body runs `num_files` times unless it throws. -/
def readDirectory : Nat → IFStream → List MPCDirEntry →
    Except Exception (IFStream × List MPCDirEntry)
  | 0, s, dir => .ok (s, dir)
  | k + 1, s, dir =>
    match readEntry s with
    | .error e => .error e
    | .ok r => readDirectory k r.1 (dir ++ [r.2])

/-- The constructor `MPCFile::MPCFile(path)`.  `uninit` is the indeterminate content of the
four bytes of the member `num_files` before the constructor body runs. -/
def MPCFile.new (src : Source) (uninit : List Byte) : Except Exception MPCFile :=
  match src with
  | .missing => .error ⟨.STAT, IFStream.closed⟩
  | .unreadable => .error ⟨.OPEN, IFStream.closed⟩
  | .readable content =>
    -- Byte 0 to 3: File signature.
    let r0 := (IFStream.opened content).read 4
    if r0.1.fail then .error ⟨.READ, r0.1⟩
    else if strncmp r0.2 magic 4 ≠ 0 then .error ⟨.FTYPE, r0.1⟩
    else
      -- Byte 4 to 7: Directory offset.  Byte 8 to 11: Unknown field.
      let r1 := r0.1.read 4
      let r2 := r1.1.read 4
      if r2.1.fail then .error ⟨.READ, r2.1⟩
      else
        let header : MPCHeader :=
          { signature := r0.2, dir_offset := le32 r1.2, unknown := le32 r2.2 }
        -- file.seekg(header.dir_offset), then the unchecked read of num_files.
        let r3 := (r2.1.seekg header.dir_offset).read 4
        let num_files := le32 (store uninit r3.2)
        -- The loop either throws or fills `dir`; the object exists when it returns.
        (readDirectory num_files r3.1 []).map fun r =>
          { dir := r.2, file := r.1, header := header, num_files := num_files }

/-- Model of `getDirectory()`. -/
def MPCFile.getDirectory (self : MPCFile) : List MPCDirEntry := self.dir

/-- Model of `getNumberOfDirEntries()`. -/
def MPCFile.getNumberOfDirEntries (self : MPCFile) : Nat := self.num_files

/-- Exit code carried by the exception of a constructor call, `none` when it returned. -/
def thrownCode (r : Except Exception MPCFile) : Option Exit :=
  match r with
  | .error e => some e.exitcode
  | .ok _ => none

/-- Source stream state carried by the exception of a constructor call. -/
def thrownFile (r : Except Exception MPCFile) : Option IFStream :=
  match r with
  | .error e => some e.file
  | .ok _ => none

/-- The object built by a constructor call, `none` when it threw. -/
def built (r : Except Exception MPCFile) : Option MPCFile :=
  match r with
  | .error _ => none
  | .ok m => some m

/-! ## MPCFile::extractFile -/

/-- The 80 bytes of an `MPCDirEntry` object in memory (little-endian host, no padding). -/
def MPCDirEntry.image (e : MPCDirEntry) : List Byte :=
  e.name ++ le32bytes e.offset ++ le32bytes e.length ++ le32bytes e.unknown1
    ++ le32bytes e.unknown2

/-- The C string that starts at the first byte of `mem`: everything before the first NUL. -/
def cstr (mem : List Byte) : List Byte := mem.takeWhile (fun b => decide (b ≠ 0))

/-- The path handed to `std::ofstream` by `extractFile`: `entry.name` decays to a
`char *`, so the path is the C string that starts at the first byte of the
entry object.  Memory beyond the object is not modelled. -/
def sinkName (e : MPCDirEntry) : List Byte := cstr e.image

/-- Value of `entry.length - written`: `uint32_t` arithmetic, `written` converted. -/
def u32sub (a b : Nat) : Nat := (a % 4294967296 + 4294967296 - b % 4294967296) % 4294967296

/-- State after the copy loop: the exit code of a thrown exception if any, and both streams. -/
structure CopyState where
  thrown : Option Exit
  file : IFStream
  outfile : OFStream
deriving DecidableEq, Repr

/-- The loop `while (true)` of `extractFile` (lines 290-328).  `written` is the `int`
counter, kept modulo 2^32 (it is only used in `entry.length - written`). -/
def copyLoop (length written : Nat) (file : IFStream) (outfile : OFStream)
    (buf : List Byte) : CopyState :=
  if h : u32sub length written < 128 then
    if (file.read (u32sub length written)).1.fail then
      ⟨some .READ, (file.read (u32sub length written)).1, outfile⟩
    else if (outfile.write (store buf (file.read (u32sub length written)).2)
        (u32sub length written)).fail then
      ⟨some .WRITE, (file.read (u32sub length written)).1,
        outfile.write (store buf (file.read (u32sub length written)).2) (u32sub length written)⟩
    else
      ⟨none, (file.read (u32sub length written)).1,
        outfile.write (store buf (file.read (u32sub length written)).2) (u32sub length written)⟩
  else
    if (file.read 128).1.fail then
      ⟨some .READ, (file.read 128).1, outfile⟩
    else if (outfile.write (store buf (file.read 128).2) 128).fail then
      ⟨some .WRITE, (file.read 128).1, outfile.write (store buf (file.read 128).2) 128⟩
    else
      copyLoop length ((written + 128) % 4294967296) (file.read 128).1
        (outfile.write (store buf (file.read 128).2) 128) (store buf (file.read 128).2)
termination_by u32sub length written
decreasing_by
  simp only [u32sub] at h ⊢
  omega

/-- Result of one `extractFile` call: the exit code of a thrown exception if any, the
object afterwards, and the sink if one was created. -/
structure ExtractOutcome where
  thrown : Option Exit
  self : MPCFile
  outfile : Option OFStream
deriving DecidableEq, Repr

/-- The method `MPCFile::extractFile(entry)`; `fs` is the file system the sink is opened in. -/
def MPCFile.extractFile (fs : SinkEnv) (self : MPCFile) (entry : MPCDirEntry) :
    ExtractOutcome :=
  if !(OFStream.opened fs (sinkName entry)).is_open then
    ⟨some .WRITE, self, none⟩
  else
    let r := copyLoop entry.length 0 (self.file.seekg entry.offset)
      (OFStream.opened fs (sinkName entry)) (List.replicate 128 0)
    ⟨r.thrown, { self with file := r.file }, some r.outfile⟩

/-! ## main -/

/-- The loop of `main` over the directory (lines 401-406); `sinks` collects, in order, the
sink of every `extractFile` call that created one. -/
def extractEach (fs : SinkEnv) : MPCFile → List MPCDirEntry → List OFStream →
    Exit × MPCFile × List OFStream
  | self, [], sinks => (.OK, self, sinks)
  | self, e :: rest, sinks =>
    match (self.extractFile fs e).thrown with
    | some c => (c, (self.extractFile fs e).self, sinks ++ (self.extractFile fs e).outfile.toList)
    | none =>
      extractEach fs (self.extractFile fs e).self rest
        (sinks ++ (self.extractFile fs e).outfile.toList)

/-- The function `main` called with one argument: the exit status and the sinks written. -/
def main (fs : SinkEnv) (src : Source) (uninit : List Byte) : Exit × List OFStream :=
  match MPCFile.new src uninit with
  | .error e => (e.exitcode, [])
  | .ok mpcfile =>
    ((extractEach fs mpcfile mpcfile.getDirectory []).1,
     (extractEach fs mpcfile mpcfile.getDirectory []).2.2)

/-! ## Specification-side definitions -/

/-- Decoding of one 80-byte directory record as the format table describes it: name in
bytes 0..63, then offset, length and the two reserved words, each a little-endian
unsigned 32-bit integer. -/
def decodeEntry (b : List Byte) : MPCDirEntry :=
  { name := b.take 64
    offset := le32 (b.drop 64)
    length := le32 (b.drop 68)
    unknown1 := le32 (b.drop 72)
    unknown2 := le32 (b.drop 76) }

/-- The byte range `[offset, offset + length)` of a byte sequence. -/
def slice (content : List Byte) (offset length : Nat) : List Byte :=
  (content.drop offset).take length

/-- The exact four-byte signature 'M','P','C','U'. -/
def signatureBytes : List Byte := [77, 80, 67, 85]

/-- The source stream after the three header reads all succeeded. -/
def headerStream (c : List Byte) : IFStream :=
  { content := c, pos := 12, eofbit := false, failbit := false, reads := [4, 4, 4] }

/-- The header decoded from the first twelve bytes. -/
def decodeHeader (c : List Byte) : MPCHeader :=
  { signature := slice c 0 4, dir_offset := le32 (slice c 4 4), unknown := le32 (slice c 8 4) }

/-- The stream after a read of `n` bytes that were all available. -/
def IFStream.advance (s : IFStream) (n : Nat) : IFStream :=
  { s with pos := s.pos + n, reads := s.reads ++ [n] }

/-- The directory table as the format describes it: `k` consecutive 80-byte records
starting at byte `start`, no padding between them. -/
def decodeDirectory (c : List Byte) : Nat → Nat → List MPCDirEntry
  | _, 0 => []
  | start, k + 1 => decodeEntry (slice c start 80) :: decodeDirectory c (start + 80) k

/-- Sizes of the `read` calls issued by `k` iterations of the directory loop. -/
def dirReads : Nat → List Nat
  | 0 => []
  | k + 1 => [64, 4, 4, 4, 4] ++ dirReads k

/-! ## Concrete containers -/

/-- A 64-byte name field holding "a.bin" padded with NUL bytes. -/
def nameField : List Byte := [97, 46, 98, 105, 110] ++ List.replicate 59 0

/-- A 99-byte container whose directory offset field holds 12: the entry count 1 is at
bytes 12..15, one entry ("a.bin", offset 96, length 3) at bytes 16..95, and the payload
7, 8, 9 at bytes 96..98. -/
def oneEntryContainer : List Byte :=
  signatureBytes ++ [12, 0, 0, 0] ++ [0, 0, 0, 0] ++ [1, 0, 0, 0]
    ++ nameField ++ [96, 0, 0, 0] ++ [3, 0, 0, 0] ++ [0, 0, 0, 0] ++ [0, 0, 0, 0]
    ++ [7, 8, 9]

/-- The object the constructor builds from `oneEntryContainer`. -/
def oneEntryFile : MPCFile :=
  { dir := [{ name := nameField, offset := 96, length := 3, unknown1 := 0, unknown2 := 0 }]
    file := { content := oneEntryContainer, pos := 96, eofbit := false, failbit := false,
              reads := [4, 4, 4, 4, 64, 4, 4, 4, 4] }
    header := { signature := signatureBytes, dir_offset := 12, unknown := 0 }
    num_files := 1 }

/-- A 104-byte container laid out as the header comments describe, with the directory
offset counted from the end of the header: the offset field holds 8, the entry count 1 is
at bytes 20..23 and one entry at bytes 24..103.  Bytes 8..11 (the unknown header word)
are zero. -/
def relativeContainer : List Byte :=
  signatureBytes ++ [8, 0, 0, 0] ++ [0, 0, 0, 0] ++ List.replicate 8 0 ++ [1, 0, 0, 0]
    ++ nameField ++ [0, 0, 0, 0] ++ [0, 0, 0, 0] ++ [0, 0, 0, 0] ++ [0, 0, 0, 0]

/-- A 12-byte source: the signature, a directory offset of 100 and the unknown word. -/
def headerOnly : List Byte := signatureBytes ++ [100, 0, 0, 0] ++ [0, 0, 0, 0]

/-- The object the constructor returns on `headerOnly` when the member `num_files` held
zero bytes: the read of the entry count failed, the directory is empty and the stream has
`failbit` set. -/
def failedFile : MPCFile :=
  { dir := []
    file := { content := headerOnly, pos := 100, eofbit := true, failbit := true,
              reads := [4, 4, 4, 4] }
    header := { signature := signatureBytes, dir_offset := 100, unknown := 0 }
    num_files := 0 }

/-- A 16-byte source: the signature, a directory offset of 12, the unknown word and four
zero bytes. -/
def headerAndZeros : List Byte :=
  signatureBytes ++ [12, 0, 0, 0] ++ [0, 0, 0, 0] ++ [0, 0, 0, 0]

/-- A 16-byte source: a complete header with directory offset 12 followed by the entry
count 1 and nothing else. -/
def countOnly : List Byte :=
  signatureBytes ++ [12, 0, 0, 0] ++ [0, 0, 0, 0] ++ [1, 0, 0, 0]

/-- An entry whose name field holds "../evil" padded with NUL bytes; its payload is the
three bytes at offset 96. -/
def evilEntry : MPCDirEntry :=
  { name := [46, 46, 47, 101, 118, 105, 108] ++ List.replicate 57 0
    offset := 96, length := 3, unknown1 := 0, unknown2 := 0 }

/-- An entry of length zero whose offset, 5000, is past the end of `oneEntryContainer`. -/
def emptyEntry : MPCDirEntry :=
  { name := nameField, offset := 5000, length := 0, unknown1 := 0, unknown2 := 0 }

/-- A file system in which every path can be opened for writing and accepts 1000 bytes. -/
def roomy : SinkEnv := fun _ => some 1000

/-- The sink that a successful extraction of `e` from a source with content `c` leaves. -/
def expectedSink (fs : SinkEnv) (c : List Byte) (e : MPCDirEntry) : OFStream :=
  { name := sinkName e, is_open := true, room := (fs (sinkName e)).getD 0,
    data := slice c e.offset e.length, failbit := false }

/-- A file system in which no path can be opened for writing. -/
def noSinks : SinkEnv := fun _ => none

/-- The entry of `oneEntryContainer`: "a.bin", offset 96, length 3. -/
def payloadEntry : MPCDirEntry :=
  { name := nameField, offset := 96, length := 3, unknown1 := 0, unknown2 := 0 }

/-- An entry whose payload range, offset 96 and length 10, ends beyond the 99 bytes of
`oneEntryContainer`. -/
def overrunEntry : MPCDirEntry :=
  { name := nameField, offset := 96, length := 10, unknown1 := 0, unknown2 := 0 }

/-- An entry of 200 bytes at offset 0. -/
def longEntry : MPCDirEntry :=
  { name := nameField, offset := 0, length := 200, unknown1 := 0, unknown2 := 0 }

/-- A 136-byte container whose directory offset field holds 12 and whose single entry is
`longEntry`: the first 128 bytes of its payload range exist, the remaining 72 do not. -/
def shortPayloadContainer : List Byte :=
  signatureBytes ++ [12, 0, 0, 0] ++ [0, 0, 0, 0] ++ [1, 0, 0, 0]
    ++ nameField ++ [0, 0, 0, 0] ++ [200, 0, 0, 0] ++ [0, 0, 0, 0] ++ [0, 0, 0, 0]
    ++ List.replicate 40 9

/-- The object the constructor builds from `shortPayloadContainer`. -/
def shortPayloadFile : MPCFile :=
  { dir := [longEntry]
    file := { content := shortPayloadContainer, pos := 96, eofbit := false, failbit := false,
              reads := [4, 4, 4, 4, 64, 4, 4, 4, 4] }
    header := { signature := signatureBytes, dir_offset := 12, unknown := 0 }
    num_files := 1 }

/-- The name field "test.bin" padded with NUL bytes. -/
def testBinName : List Byte := [116, 101, 115, 116, 46, 98, 105, 110] ++ List.replicate 56 0

/-- The literal round-trip scenario with the directory written last: signature, directory
offset 0, unknown word 0, entry count 1 at bytes 12..15 and the entry ("test.bin",
offset 16, length 5) at bytes 16..95.  Bytes 16..20 belong to the name field, so the
payload 1, 2, 3, 4, 5 is not in the file. -/
def scenarioDirectoryLast : List Byte :=
  signatureBytes ++ [0, 0, 0, 0] ++ [0, 0, 0, 0] ++ [1, 0, 0, 0]
    ++ testBinName ++ [16, 0, 0, 0] ++ [5, 0, 0, 0] ++ [0, 0, 0, 0] ++ [0, 0, 0, 0]

/-- The literal round-trip scenario with the payload written last: as
`scenarioDirectoryLast`, but bytes 16..20 hold the payload 1, 2, 3, 4, 5, which replaces
the first five bytes of the name field. -/
def scenarioPayloadLast : List Byte :=
  signatureBytes ++ [0, 0, 0, 0] ++ [0, 0, 0, 0] ++ [1, 0, 0, 0]
    ++ ([1, 2, 3, 4, 5] ++ testBinName.drop 5)
    ++ [16, 0, 0, 0] ++ [5, 0, 0, 0] ++ [0, 0, 0, 0] ++ [0, 0, 0, 0]

/-- An entry whose 64-byte name field holds 64 times 'A' and no NUL byte; offset 96,
length 3. -/
def unterminatedEntry : MPCDirEntry :=
  { name := List.replicate 64 65, offset := 96, length := 3, unknown1 := 0, unknown2 := 0 }

/-- A 99-byte container like `oneEntryContainer` whose entry is `unterminatedEntry`. -/
def unterminatedContainer : List Byte :=
  signatureBytes ++ [12, 0, 0, 0] ++ [0, 0, 0, 0] ++ [1, 0, 0, 0]
    ++ List.replicate 64 65 ++ [96, 0, 0, 0] ++ [3, 0, 0, 0] ++ [0, 0, 0, 0] ++ [0, 0, 0, 0]
    ++ [7, 8, 9]

/-- The object the constructor builds from `unterminatedContainer`. -/
def unterminatedFile : MPCFile :=
  { dir := [unterminatedEntry]
    file := { content := unterminatedContainer, pos := 96, eofbit := false, failbit := false,
              reads := [4, 4, 4, 4, 64, 4, 4, 4, 4] }
    header := { signature := signatureBytes, dir_offset := 12, unknown := 0 }
    num_files := 1 }

/-- A 12-byte source: the signature, a directory offset of 8 and the unknown word 0. -/
def reservedZero : List Byte := signatureBytes ++ [8, 0, 0, 0] ++ [0, 0, 0, 0]

/-- The source `reservedZero` with the unknown word, bytes 8..11, changed to 1. -/
def reservedOne : List Byte := signatureBytes ++ [8, 0, 0, 0] ++ [1, 0, 0, 0]

/-- A good source stream at position 0 of a 300-byte file. -/
def sampleSource : IFStream := IFStream.opened (List.replicate 300 1)

/-- An open, empty sink that accepts 300 bytes. -/
def sampleSink : OFStream :=
  { name := [111], is_open := true, room := 300, data := [], failbit := false }

/-- The name field "b.bin" padded with NUL bytes. -/
def nameFieldB : List Byte := [98, 46, 98, 105, 110] ++ List.replicate 59 0

/-- First entry of `twoEntryContainer`: "a.bin", offset 176, length 10, a range that ends
beyond the 179 bytes of the container. -/
def firstEntry : MPCDirEntry :=
  { name := nameField, offset := 176, length := 10, unknown1 := 0, unknown2 := 0 }

/-- Second entry of `twoEntryContainer`: "b.bin", offset 176, length 3. -/
def secondEntry : MPCDirEntry :=
  { name := nameFieldB, offset := 176, length := 3, unknown1 := 0, unknown2 := 0 }

/-- A 179-byte container whose directory offset field holds 12, with the two entries
`firstEntry` and `secondEntry` at bytes 16..175 and the payload 7, 8, 9 at bytes
176..178. -/
def twoEntryContainer : List Byte :=
  signatureBytes ++ [12, 0, 0, 0] ++ [0, 0, 0, 0] ++ [2, 0, 0, 0]
    ++ nameField ++ [176, 0, 0, 0] ++ [10, 0, 0, 0] ++ [0, 0, 0, 0] ++ [0, 0, 0, 0]
    ++ nameFieldB ++ [176, 0, 0, 0] ++ [3, 0, 0, 0] ++ [0, 0, 0, 0] ++ [0, 0, 0, 0]
    ++ [7, 8, 9]

/-- The object the constructor builds from `twoEntryContainer`. -/
def twoEntryFile : MPCFile :=
  { dir := [firstEntry, secondEntry]
    file := { content := twoEntryContainer, pos := 176, eofbit := false, failbit := false,
              reads := [4, 4, 4, 4, 64, 4, 4, 4, 4, 64, 4, 4, 4, 4] }
    header := { signature := signatureBytes, dir_offset := 12, unknown := 0 }
    num_files := 2 }

/-- A file system in which the path "a.bin" cannot be opened for writing and every other
path accepts 1000 bytes. -/
def blockedA : SinkEnv := fun path => if path = [97, 46, 98, 105, 110] then none else some 1000

/-- Two source streams that agree on everything but the log of `read` calls. -/
def sameUpToLog (s t : IFStream) : Prop :=
  s.content = t.content ∧ s.pos = t.pos ∧ s.eofbit = t.eofbit ∧ s.failbit = t.failbit

/-! ## Lemmas on the stream model -/

theorem IFStream.read_content (s : IFStream) (n : Nat) : (s.read n).1.content = s.content := by
  unfold IFStream.read
  split_ifs <;> rfl

theorem IFStream.read_reads (s : IFStream) (n : Nat) : (s.read n).1.reads = s.reads ++ [n] := by
  unfold IFStream.read
  split_ifs <;> rfl

theorem IFStream.read_fail_iff (s : IFStream) (n : Nat) :
    (s.read n).1.fail = false ↔
      s.good = true ∧ (s.pos + n ≤ s.content.length ∨ n = 0) := by
  unfold IFStream.read
  by_cases hg : s.good = true
  · have hf : s.failbit = false := by
      simp [IFStream.good] at hg
      exact hg.2
    by_cases h : ((s.content.drop s.pos).take n).length < n
    · have h2 : ¬ (s.pos + n ≤ s.content.length ∨ n = 0) := by
        simp only [List.length_take, List.length_drop] at h
        omega
      rw [if_pos hg, if_pos h]
      simp [hg, h2, IFStream.fail]
    · have h2 : s.pos + n ≤ s.content.length ∨ n = 0 := by
        simp only [List.length_take, List.length_drop] at h
        omega
      rw [if_pos hg, if_neg h]
      simp [hg, h2, IFStream.fail, hf]
  · rw [if_neg hg]
    simp [hg, IFStream.fail]

theorem IFStream.read_ok (s : IFStream) (n : Nat) (hg : s.good = true)
    (hn : s.pos + n ≤ s.content.length) :
    s.read n = ({ s with pos := s.pos + n, reads := s.reads ++ [n] },
      slice s.content s.pos n) := by
  unfold IFStream.read slice
  have h : ¬ ((s.content.drop s.pos).take n).length < n := by
    simp only [List.length_take, List.length_drop]
    omega
  rw [if_pos hg, if_neg h]

theorem IFStream.read_fail_sticky (s : IFStream) (n : Nat) (h : s.fail = true) :
    (s.read n).1.fail = true := by
  cases hf : (s.read n).1.fail with
  | true => rfl
  | false =>
    have := ((IFStream.read_fail_iff s n).1 hf).1
    simp [IFStream.good, IFStream.fail] at this h
    simp [h] at this

theorem IFStream.read_zero (s : IFStream) (hg : s.good = true) :
    s.read 0 = ({ s with reads := s.reads ++ [0] }, []) := by
  unfold IFStream.read
  rw [if_pos hg, if_neg (by simp)]
  simp

theorem slice_length (c : List Byte) (p n : Nat) (h : p + n ≤ c.length) :
    (slice c p n).length = n := by
  simp only [slice, List.length_take, List.length_drop]
  omega

theorem le32_take (b : List Byte) (n : Nat) (h : 4 ≤ n) : le32 (b.take n) = le32 b := by
  have key : ∀ i, i < 4 → (b.take n).getD i 0 = b.getD i 0 := by
    intro i hi
    simp only [List.getD_eq_getElem?_getD]
    rw [List.getElem?_take_of_lt (by omega)]
  unfold le32
  rw [key 0 (by omega), key 1 (by omega), key 2 (by omega), key 3 (by omega)]

theorem IFStream.read_eq_advance (s : IFStream) (n : Nat) (hg : s.good = true)
    (hn : s.pos + n ≤ s.content.length) :
    s.read n = (s.advance n, slice s.content s.pos n) :=
  IFStream.read_ok s n hg hn

theorem IFStream.read_of_not_fail (s : IFStream) (n : Nat) (hn0 : n ≠ 0)
    (h : (s.read n).1.fail = false) :
    s.good = true ∧ s.pos + n ≤ s.content.length ∧
      s.read n = (s.advance n, slice s.content s.pos n) := by
  obtain ⟨hg, hb⟩ := (IFStream.read_fail_iff s n).1 h
  have hb2 : s.pos + n ≤ s.content.length := by omega
  exact ⟨hg, hb2, IFStream.read_ok s n hg hb2⟩

theorem slice_take (c : List Byte) (p n m : Nat) (h : m ≤ n) :
    (slice c p n).take m = slice c p m := by
  simp only [slice, List.take_take]
  rw [Nat.min_eq_left h]

theorem le32_slice (c : List Byte) (p n k : Nat) (h : k + 4 ≤ n) :
    le32 (slice c (p + k) 4) = le32 ((slice c p n).drop k) := by
  simp only [slice, List.drop_take, List.drop_drop]
  rw [le32_take _ 4 (le_refl 4), le32_take _ (n - k) (by omega)]

theorem readEntry_ok (s : IFStream) (hg : s.good = true)
    (hn : s.pos + 80 ≤ s.content.length) :
    readEntry s = .ok ({ s with pos := s.pos + 80, reads := s.reads ++ [64, 4, 4, 4, 4] },
      decodeEntry (slice s.content s.pos 80)) := by
  have e1 := IFStream.read_eq_advance s 64 hg (by omega)
  have e2 := IFStream.read_eq_advance (s.advance 64) 4 hg (by simp [IFStream.advance]; omega)
  have e3 := IFStream.read_eq_advance ((s.advance 64).advance 4) 4 hg
    (by simp [IFStream.advance]; omega)
  have e4 := IFStream.read_eq_advance (((s.advance 64).advance 4).advance 4) 4 hg
    (by simp [IFStream.advance]; omega)
  have e5 := IFStream.read_eq_advance ((((s.advance 64).advance 4).advance 4).advance 4) 4 hg
    (by simp [IFStream.advance]; omega)
  have hf : s.failbit = false := by
    simp [IFStream.good] at hg
    exact hg.2
  unfold readEntry
  simp only [e1, e2, e3, e4, e5]
  simp only [IFStream.advance, IFStream.fail, hf, decodeEntry, Bool.false_eq_true, if_false,
    List.append_assoc, List.cons_append, List.nil_append, Nat.add_assoc, Nat.reduceAdd]
  rw [slice_take s.content s.pos 80 64 (by omega), le32_slice s.content s.pos 80 64 (by omega),
    le32_slice s.content s.pos 80 68 (by omega), le32_slice s.content s.pos 80 72 (by omega),
    le32_slice s.content s.pos 80 76 (by omega)]

theorem readEntry_error (s : IFStream)
    (h : ¬ (s.good = true ∧ s.pos + 80 ≤ s.content.length)) :
    ∃ st, readEntry s = .error ⟨.READ, st⟩ := by
  unfold readEntry
  split_ifs with h1 h2 h3 h5
  · exact ⟨_, rfl⟩
  · exact ⟨_, rfl⟩
  · exact ⟨_, rfl⟩
  · exact ⟨_, rfl⟩
  · exfalso
    apply h
    have h1f : (s.read 64).1.fail = false := by simpa using h1
    obtain ⟨hg, hb1, e1⟩ := IFStream.read_of_not_fail s 64 (by decide) h1f
    rw [e1] at h2 h3 h5
    have h2f : ((s.advance 64).read 4).1.fail = false := by simpa using h2
    obtain ⟨_, hb2, e2⟩ := IFStream.read_of_not_fail _ 4 (by decide) h2f
    rw [e2] at h3 h5
    have h3f : (((s.advance 64).advance 4).read 4).1.fail = false := by simpa using h3
    obtain ⟨_, hb3, e3⟩ := IFStream.read_of_not_fail _ 4 (by decide) h3f
    rw [e3] at h5
    have h5f : ((((s.advance 64).advance 4).advance 4).read 4).1.read 4 |>.1.fail = false := by
      simpa using h5
    obtain ⟨hg5, hb5, _⟩ := IFStream.read_of_not_fail _ 4 (by decide) h5f
    have h4f : ((((s.advance 64).advance 4).advance 4).read 4).1.fail = false := by
      simp only [IFStream.good, IFStream.fail] at hg5 ⊢
      cases hx : ((((s.advance 64).advance 4).advance 4).read 4).1.failbit
      · rfl
      · rw [hx] at hg5
        simp at hg5
    obtain ⟨_, hb4, e4⟩ := IFStream.read_of_not_fail _ 4 (by decide) h4f
    rw [e4] at hb5
    simp only [IFStream.advance] at hb5
    exact ⟨hg, by omega⟩

theorem decodeDirectory_length (c : List Byte) (start k : Nat) :
    (decodeDirectory c start k).length = k := by
  induction k generalizing start with
  | zero => rfl
  | succ k ih => simp [decodeDirectory, ih]

theorem decodeDirectory_getElem? (c : List Byte) (start k i : Nat) (hi : i < k) :
    (decodeDirectory c start k)[i]? = some (decodeEntry (slice c (start + 80 * i) 80)) := by
  induction k generalizing start i with
  | zero => omega
  | succ k ih =>
    cases i with
    | zero => simp [decodeDirectory]
    | succ j =>
      simp only [decodeDirectory, List.getElem?_cons_succ]
      rw [ih (start + 80) j (by omega)]
      congr 3
      omega

theorem readDirectory_ok (k : Nat) (s : IFStream) (dir : List MPCDirEntry)
    (hg : s.good = true) (hn : s.pos + 80 * k ≤ s.content.length) :
    readDirectory k s dir =
      .ok ({ s with pos := s.pos + 80 * k, reads := s.reads ++ dirReads k },
        dir ++ decodeDirectory s.content s.pos k) := by
  induction k generalizing s dir with
  | zero => simp [readDirectory, dirReads, decodeDirectory]
  | succ k ih =>
    rw [readDirectory, readEntry_ok s hg (by omega)]
    simp only []
    rw [ih { s with pos := s.pos + 80, reads := s.reads ++ [64, 4, 4, 4, 4] } _ hg
      (by show s.pos + 80 + 80 * k ≤ s.content.length; omega)]
    simp only [dirReads, decodeDirectory, List.append_assoc, List.singleton_append]
    congr 3
    omega

theorem readDirectory_error (k : Nat) (s : IFStream) (dir : List MPCDirEntry) (hk : 0 < k)
    (h : ¬ (s.good = true ∧ s.pos + 80 * k ≤ s.content.length)) :
    ∃ st, readDirectory k s dir = .error ⟨.READ, st⟩ := by
  induction k generalizing s dir with
  | zero => omega
  | succ k ih =>
    by_cases h1 : s.good = true ∧ s.pos + 80 ≤ s.content.length
    · rw [readDirectory, readEntry_ok s h1.1 h1.2]
      simp only []
      apply ih
      · rcases h1 with ⟨hg, hb⟩
        by_contra hk0
        apply h
        exact ⟨hg, by omega⟩
      · intro hc
        apply h
        refine ⟨h1.1, ?_⟩
        have hc2 : s.pos + 80 + 80 * k ≤ s.content.length := hc.2
        omega
    · obtain ⟨st, hst⟩ := readEntry_error s h1
      exact ⟨st, by rw [readDirectory, hst]⟩

theorem strncmp_magic (a : List Byte) (ha : a.length = 4) :
    strncmp a magic 4 ≠ 0 ↔ a ≠ signatureBytes := by
  match a, ha with
  | [a0, a1, a2, a3], _ =>
    simp only [strncmp, magic, signatureBytes, List.headD_cons, List.tail_cons, ne_eq,
      List.cons.injEq, and_true]
    by_cases h0 : a0 = 77
    · by_cases h1 : a1 = 80
      · by_cases h2 : a2 = 67
        · by_cases h3 : a3 = 85
          · subst h0 h1 h2 h3
            decide
          · have : (a3.val : Int) - ((85 : Byte).val : Int) ≠ 0 := by
              intro hc
              apply h3
              apply Fin.ext
              have h85 : ((85 : Byte).val) = 85 := rfl
              rw [h85] at hc
              have h85b : ((85 : Byte) : Nat) = 85 := rfl
              omega
            subst h0 h1 h2
            simp [h3, this]
        · have : (a2.val : Int) - ((67 : Byte).val : Int) ≠ 0 := by
            intro hc
            apply h2
            apply Fin.ext
            have h67 : ((67 : Byte).val) = 67 := rfl
            rw [h67] at hc
            omega
          subst h0 h1
          simp [h2, this]
      · have : (a1.val : Int) - ((80 : Byte).val : Int) ≠ 0 := by
          intro hc
          apply h1
          apply Fin.ext
          have h80 : ((80 : Byte).val) = 80 := rfl
          rw [h80] at hc
          omega
        subst h0
        simp [h1, this]
    · have : (a0.val : Int) - ((77 : Byte).val : Int) ≠ 0 := by
        intro hc
        apply h0
        apply Fin.ext
        have h77 : ((77 : Byte).val) = 77 := rfl
        rw [h77] at hc
        omega
      simp [h0, this]

/-! ## Lemmas on the constructor -/

theorem slice_zero (c : List Byte) (n : Nat) : slice c 0 n = c.take n := by
  simp [slice]

theorem new_short_signature (c uninit : List Byte) (h : c.length < 4) :
    ∃ st, MPCFile.new (.readable c) uninit = .error ⟨.READ, st⟩ := by
  have hf : ((IFStream.opened c).read 4).1.fail = true := by
    cases hx : ((IFStream.opened c).read 4).1.fail with
    | true => rfl
    | false =>
      have := ((IFStream.read_fail_iff _ 4).1 hx).2
      simp only [IFStream.opened] at this
      omega
  simp only [MPCFile.new]
  rw [if_pos hf]
  exact ⟨_, rfl⟩

theorem new_bad_signature (c uninit : List Byte) (h : 4 ≤ c.length)
    (hs : c.take 4 ≠ signatureBytes) :
    MPCFile.new (.readable c) uninit =
      .error ⟨.FTYPE, (IFStream.opened c).advance 4⟩ := by
  have e0 := IFStream.read_eq_advance (IFStream.opened c) 4 rfl (by simpa [IFStream.opened] using h)
  have hlen : (c.take 4).length = 4 := by simp [h]
  have hcmp := (strncmp_magic (c.take 4) hlen).2 hs
  simp only [MPCFile.new, e0]
  simp only [IFStream.opened, slice_zero] at hcmp ⊢
  rw [if_neg (by simp [IFStream.advance, IFStream.fail]), if_pos hcmp]

theorem new_good_signature (c uninit : List Byte) (h : 4 ≤ c.length)
    (hs : c.take 4 = signatureBytes) :
    MPCFile.new (.readable c) uninit =
      if ((((IFStream.opened c).advance 4).read 4).1.read 4).1.fail then
        .error ⟨.READ, ((((IFStream.opened c).advance 4).read 4).1.read 4).1⟩
      else
        (readDirectory
          (le32 (store uninit
            ((((((IFStream.opened c).advance 4).read 4).1.read 4).1.seekg
              (le32 (((IFStream.opened c).advance 4).read 4).2)).read 4).2))
          ((((((IFStream.opened c).advance 4).read 4).1.read 4).1.seekg
              (le32 (((IFStream.opened c).advance 4).read 4).2)).read 4).1 []).map fun r =>
          { dir := r.2, file := r.1,
            header := { signature := c.take 4,
                        dir_offset := le32 (((IFStream.opened c).advance 4).read 4).2,
                        unknown := le32 ((((IFStream.opened c).advance 4).read 4).1.read 4).2 },
            num_files := le32 (store uninit
              ((((((IFStream.opened c).advance 4).read 4).1.read 4).1.seekg
                (le32 (((IFStream.opened c).advance 4).read 4).2)).read 4).2) } := by
  have e0 := IFStream.read_eq_advance (IFStream.opened c) 4 rfl (by simpa [IFStream.opened] using h)
  have hlen : (c.take 4).length = 4 := by simp [h]
  have hcmp : ¬ (strncmp (c.take 4) magic 4 ≠ 0) := by
    rw [strncmp_magic (c.take 4) hlen]
    simp [hs]
  simp only [MPCFile.new, e0]
  simp only [IFStream.opened, slice_zero] at hcmp ⊢
  rw [if_neg (by simp [IFStream.advance, IFStream.fail]), if_neg hcmp]

theorem new_short_header (c uninit : List Byte) (h4 : 4 ≤ c.length) (h12 : c.length < 12)
    (hs : c.take 4 = signatureBytes) :
    ∃ st, MPCFile.new (.readable c) uninit = .error ⟨.READ, st⟩ := by
  rw [new_good_signature c uninit h4 hs]
  have hf : ((((IFStream.opened c).advance 4).read 4).1.read 4).1.fail = true := by
    cases hx : ((((IFStream.opened c).advance 4).read 4).1.read 4).1.fail with
    | true => rfl
    | false =>
      exfalso
      obtain ⟨hg2, hb2, _⟩ := IFStream.read_of_not_fail _ 4 (by decide) hx
      have h1f : (((IFStream.opened c).advance 4).read 4).1.fail = false := by
        simp only [IFStream.good, IFStream.fail] at hg2 ⊢
        cases hy : (((IFStream.opened c).advance 4).read 4).1.failbit
        · rfl
        · rw [hy] at hg2
          simp at hg2
      obtain ⟨_, hb1, e1⟩ := IFStream.read_of_not_fail _ 4 (by decide) h1f
      rw [e1] at hb2
      simp only [IFStream.advance, IFStream.opened] at hb2
      omega
  rw [if_pos hf]
  exact ⟨_, rfl⟩

theorem new_header (c uninit : List Byte) (h12 : 12 ≤ c.length)
    (hs : c.take 4 = signatureBytes) :
    MPCFile.new (.readable c) uninit =
      (readDirectory
        (le32 (store uninit (((headerStream c).seekg (le32 (slice c 4 4))).read 4).2))
        (((headerStream c).seekg (le32 (slice c 4 4))).read 4).1 []).map fun r =>
        { dir := r.2, file := r.1, header := decodeHeader c,
          num_files :=
            le32 (store uninit (((headerStream c).seekg (le32 (slice c 4 4))).read 4).2) } := by
  rw [new_good_signature c uninit (by omega) hs]
  have e1 := IFStream.read_eq_advance ((IFStream.opened c).advance 4) 4 rfl
    (by simp only [IFStream.advance, IFStream.opened]; omega)
  have e2 := IFStream.read_eq_advance (((IFStream.opened c).advance 4).advance 4) 4 rfl
    (by simp only [IFStream.advance, IFStream.opened]; omega)
  simp only [e1, e2]
  rw [if_neg (by simp [IFStream.advance, IFStream.fail, IFStream.opened])]
  simp only [IFStream.advance, IFStream.opened, headerStream, decodeHeader, slice_zero,
    List.nil_append, List.cons_append, Nat.zero_add, Nat.reduceAdd]

theorem le32_store (old got : List Byte) (h : 4 ≤ got.length) :
    le32 (store old got) = le32 got := by
  unfold le32 store
  rw [List.getD_append _ _ _ 0 (by omega), List.getD_append _ _ _ 1 (by omega),
    List.getD_append _ _ _ 2 (by omega), List.getD_append _ _ _ 3 (by omega)]

theorem readEntry_error_code (s : IFStream) (e : Exception)
    (h : readEntry s = .error e) : e.exitcode = .READ := by
  by_cases h1 : s.good = true ∧ s.pos + 80 ≤ s.content.length
  · rw [readEntry_ok s h1.1 h1.2] at h
    cases h
  · obtain ⟨st, hst⟩ := readEntry_error s h1
    rw [hst] at h
    cases h
    rfl

theorem readDirectory_error_code (k : Nat) (s : IFStream) (dir : List MPCDirEntry)
    (e : Exception) (h : readDirectory k s dir = .error e) : e.exitcode = .READ := by
  induction k generalizing s dir with
  | zero => simp [readDirectory] at h
  | succ k ih =>
    rw [readDirectory] at h
    cases hr : readEntry s with
    | error e1 =>
      rw [hr] at h
      simp only [] at h
      cases h
      exact readEntry_error_code s _ hr
    | ok r =>
      rw [hr] at h
      exact ih _ _ h

/-- The source stream positioned on the directory after the entry count was read. -/
theorem count_read_ok (c : List Byte) (d : Nat) (h : d + 4 ≤ c.length) :
    ((headerStream c).seekg d).read 4 =
      ({ content := c, pos := d + 4, eofbit := false, failbit := false,
         reads := [4, 4, 4, 4] }, slice c d 4) := by
  have := IFStream.read_eq_advance ((headerStream c).seekg d) 4 rfl
    (by simpa [headerStream, IFStream.seekg, IFStream.fail] using h)
  rw [this]
  simp [headerStream, IFStream.seekg, IFStream.fail, IFStream.advance]

theorem count_read_fail (c : List Byte) (d : Nat) (h : c.length < d + 4) :
    (((headerStream c).seekg d).read 4).1.fail = true := by
  cases hx : (((headerStream c).seekg d).read 4).1.fail with
  | true => rfl
  | false =>
    have := ((IFStream.read_fail_iff _ 4).1 hx).2
    simp only [headerStream, IFStream.seekg, IFStream.fail] at this
    simp at this
    omega

/-- The constructor on a source with a complete header, a readable entry count and a
complete directory. -/
theorem new_complete (c uninit : List Byte) (h12 : 12 ≤ c.length)
    (hs : c.take 4 = signatureBytes) (hc : le32 (slice c 4 4) + 4 ≤ c.length)
    (hd : le32 (slice c 4 4) + 4 + 80 * le32 (slice c (le32 (slice c 4 4)) 4) ≤ c.length) :
    MPCFile.new (.readable c) uninit = .ok
      { dir := decodeDirectory c (le32 (slice c 4 4) + 4)
          (le32 (slice c (le32 (slice c 4 4)) 4)),
        file := { content := c,
                  pos := le32 (slice c 4 4) + 4 + 80 * le32 (slice c (le32 (slice c 4 4)) 4),
                  eofbit := false, failbit := false,
                  reads := [4, 4, 4, 4] ++ dirReads (le32 (slice c (le32 (slice c 4 4)) 4)) },
        header := decodeHeader c,
        num_files := le32 (slice c (le32 (slice c 4 4)) 4) } := by
  rw [new_header c uninit h12 hs, count_read_ok c _ hc]
  simp only []
  rw [le32_store _ _ (by rw [slice_length _ _ _ hc]),
    readDirectory_ok _ (IFStream.mk c (le32 (slice c 4 4) + 4) false false [4, 4, 4, 4]) _ rfl hd]
  rfl

/-- The constructor on a source with a complete header and a readable entry count whose
directory is cut short. -/
theorem new_truncated (c uninit : List Byte) (h12 : 12 ≤ c.length)
    (hs : c.take 4 = signatureBytes) (hc : le32 (slice c 4 4) + 4 ≤ c.length)
    (hd : c.length < le32 (slice c 4 4) + 4 + 80 * le32 (slice c (le32 (slice c 4 4)) 4)) :
    ∃ st, MPCFile.new (.readable c) uninit = .error ⟨.READ, st⟩ := by
  rw [new_header c uninit h12 hs, count_read_ok c _ hc]
  simp only []
  rw [le32_store _ _ (by rw [slice_length _ _ _ hc])]
  obtain ⟨st, hst⟩ := readDirectory_error (le32 (slice c (le32 (slice c 4 4)) 4))
    (IFStream.mk c (le32 (slice c 4 4) + 4) false false [4, 4, 4, 4]) [] (by omega)
    (by
      intro hx
      have := hx.2
      simp only [] at this
      omega)
  rw [hst]
  exact ⟨st, rfl⟩

/-- The constructor on a source with a complete header whose entry count cannot be read:
the outcome is decided by what the member `num_files` holds after the failed read. -/
theorem new_count_unreadable (c uninit : List Byte) (h12 : 12 ≤ c.length)
    (hs : c.take 4 = signatureBytes) (hc : c.length < le32 (slice c 4 4) + 4) :
    (le32 (store uninit (((headerStream c).seekg (le32 (slice c 4 4))).read 4).2) = 0 →
      MPCFile.new (.readable c) uninit = .ok
        { dir := [], file := (((headerStream c).seekg (le32 (slice c 4 4))).read 4).1,
          header := decodeHeader c, num_files := 0 }) ∧
    (le32 (store uninit (((headerStream c).seekg (le32 (slice c 4 4))).read 4).2) ≠ 0 →
      ∃ st, MPCFile.new (.readable c) uninit = .error ⟨.READ, st⟩) := by
  have hf := count_read_fail c _ hc
  constructor
  · intro h0
    rw [new_header c uninit h12 hs, h0]
    rfl
  · intro h0
    rw [new_header c uninit h12 hs]
    obtain ⟨st, hst⟩ := readDirectory_error
      (le32 (store uninit (((headerStream c).seekg (le32 (slice c 4 4))).read 4).2))
      (((headerStream c).seekg (le32 (slice c 4 4))).read 4).1 [] (by omega)
      (by
        intro hx
        have hg := hx.1
        simp only [IFStream.good, IFStream.fail] at hg hf
        rw [hf] at hg
        simp at hg)
    rw [hst]
    exact ⟨st, rfl⟩

theorem IFStream.seekg_content (s : IFStream) (p : Nat) : (s.seekg p).content = s.content := by
  unfold IFStream.seekg
  split_ifs <;> rfl

/-- Everything a successful constructor call establishes. -/
theorem new_ok_inv (src : Source) (uninit : List Byte) (mpc : MPCFile)
    (h : MPCFile.new src uninit = .ok mpc) :
    ∃ c, src = .readable c ∧ 12 ≤ c.length ∧ c.take 4 = signatureBytes ∧
      mpc.header = decodeHeader c ∧ mpc.file.content = c ∧
      mpc.dir = decodeDirectory c (mpc.header.dir_offset + 4) mpc.num_files ∧
      (mpc.num_files = 0 ∨ mpc.header.dir_offset + 4 + 80 * mpc.num_files ≤ c.length) ∧
      (mpc.num_files = 0 ∨ mpc.file.good = true) := by
  cases src with
  | missing => simp [MPCFile.new] at h
  | unreadable => simp [MPCFile.new] at h
  | readable c =>
    refine ⟨c, rfl, ?_⟩
    by_cases h4 : c.length < 4
    · obtain ⟨st, hst⟩ := new_short_signature c uninit h4
      rw [hst] at h
      cases h
    by_cases hs : c.take 4 = signatureBytes
    swap
    · rw [new_bad_signature c uninit (by omega) hs] at h
      cases h
    by_cases h12 : c.length < 12
    · obtain ⟨st, hst⟩ := new_short_header c uninit (by omega) h12 hs
      rw [hst] at h
      cases h
    have h12b : 12 ≤ c.length := by omega
    by_cases hc : le32 (slice c 4 4) + 4 ≤ c.length
    · by_cases hd :
          le32 (slice c 4 4) + 4 + 80 * le32 (slice c (le32 (slice c 4 4)) 4) ≤ c.length
      · rw [new_complete c uninit h12b hs hc hd] at h
        injection h with h
        subst h
        exact ⟨h12b, hs, rfl, rfl, rfl, Or.inr hd, Or.inr rfl⟩
      · obtain ⟨st, hst⟩ := new_truncated c uninit h12b hs hc (by omega)
        rw [hst] at h
        cases h
    · have hu := new_count_unreadable c uninit h12b hs (by omega)
      by_cases h0 :
          le32 (store uninit (((headerStream c).seekg (le32 (slice c 4 4))).read 4).2) = 0
      · rw [hu.1 h0] at h
        injection h with h
        subst h
        refine ⟨h12b, hs, rfl, ?_, rfl, Or.inl rfl, Or.inl rfl⟩
        show (((headerStream c).seekg (le32 (slice c 4 4))).read 4).1.content = c
        rw [IFStream.read_content, IFStream.seekg_content]
        rfl
      · obtain ⟨st, hst⟩ := hu.2 h0
        rw [hst] at h
        cases h

theorem new_good_signature_code (c uninit : List Byte) (h : 4 ≤ c.length)
    (hs : c.take 4 = signatureBytes) :
    thrownCode (MPCFile.new (.readable c) uninit) ≠ some .FTYPE := by
  rw [new_good_signature c uninit h hs]
  split_ifs
  · simp [thrownCode]
  · generalize hk : le32 (store uninit
      ((((((IFStream.opened c).advance 4).read 4).1.read 4).1.seekg
        (le32 (((IFStream.opened c).advance 4).read 4).2)).read 4).2) = k
    cases hr : readDirectory k
      ((((((IFStream.opened c).advance 4).read 4).1.read 4).1.seekg
        (le32 (((IFStream.opened c).advance 4).read 4).2)).read 4).1 [] with
    | error e =>
      have := readDirectory_error_code _ _ _ e hr
      simp [Except.map, thrownCode, this]
    | ok r => simp [Except.map, thrownCode]

/-! ## Lemmas on extraction -/

theorem IFStream.read_eq_advance_or_zero (s : IFStream) (n : Nat) (hg : s.good = true)
    (hn : n = 0 ∨ s.pos + n ≤ s.content.length) :
    s.read n = (s.advance n, slice s.content s.pos n) := by
  rcases hn with h0 | hb
  · subst h0
    rw [IFStream.read_zero s hg]
    simp [IFStream.advance, slice]
  · exact IFStream.read_ok s n hg hb

theorem OFStream.write_ok (o : OFStream) (buf : List Byte) (n : Nat) (hf : o.failbit = false)
    (ho : o.is_open = true) (hr : o.data.length + n ≤ o.room) :
    o.write buf n = { o with data := o.data ++ buf.take n } := by
  unfold OFStream.write
  rw [if_neg (by simp [hf, ho]), if_pos hr]
  split_ifs <;> rfl

theorem store_take (old got : List Byte) (n : Nat) (h : got.length = n) :
    (store old got).take n = got := by
  unfold store
  exact List.take_left' h

theorem slice_append (c : List Byte) (p a b : Nat) :
    slice c p a ++ slice c (p + a) b = slice c p (a + b) := by
  unfold slice
  rw [List.take_add, List.drop_drop]

theorem u32sub_eq (a b : Nat) (ha : a < 4294967296) (hb : b ≤ a) : u32sub a b = a - b := by
  unfold u32sub
  omega

/-- The copy loop on a stream that holds all the bytes still to be copied and a sink that
accepts them: it returns normally, having read `length - written` bytes in chunks of
128 and a last chunk of fewer than 128, and having appended exactly these bytes. -/
theorem copyLoop_ok (length : Nat) (hl : length < 4294967296) (d : Nat) :
    ∀ (written : Nat) (file : IFStream) (outfile : OFStream) (buf : List Byte),
      d = length - written → written ≤ length → file.good = true →
      (d = 0 ∨ file.pos + d ≤ file.content.length) →
      outfile.failbit = false → outfile.is_open = true →
      outfile.data.length + d ≤ outfile.room →
      copyLoop length written file outfile buf =
        ⟨none,
         { file with pos := file.pos + d,
                     reads := file.reads ++ (List.replicate (d / 128) 128 ++ [d % 128]) },
         { outfile with data := outfile.data ++ slice file.content file.pos d }⟩ := by
  induction d using Nat.strong_induction_on with
  | _ d ih =>
    intro written file outfile buf hd hw hg hb hof hoo hroom
    have hsub : u32sub length written = d := by
      rw [u32sub_eq length written hl hw, hd]
    rw [copyLoop]
    simp only [hsub]
    by_cases hlt : d < 128
    · rw [dif_pos hlt, IFStream.read_eq_advance_or_zero file d hg hb]
      simp only []
      have hgot : (slice file.content file.pos d).length = d := by
        rcases hb with h0 | hb
        · subst h0
          simp [slice]
        · exact slice_length _ _ _ hb
      rw [OFStream.write_ok outfile _ d hof hoo hroom, store_take _ _ _ hgot]
      have hf : file.failbit = false := by
        simp [IFStream.good] at hg
        exact hg.2
      have hdiv : d / 128 = 0 := Nat.div_eq_of_lt hlt
      have hmod : d % 128 = d := Nat.mod_eq_of_lt hlt
      simp [IFStream.advance, IFStream.fail, OFStream.fail, hf, hof, hdiv, hmod, List.take_of_length_le, hgot]
    · have hb2 : file.pos + d ≤ file.content.length := by omega
      rw [dif_neg hlt, IFStream.read_eq_advance file 128 hg (by omega)]
      simp only []
      have hgot : (slice file.content file.pos 128).length = 128 :=
        slice_length _ _ _ (by omega)
      rw [OFStream.write_ok outfile _ 128 hof hoo (by omega), store_take _ _ _ hgot]
      have hf : file.failbit = false := by
        simp [IFStream.good] at hg
        exact hg.2
      rw [if_neg (by simp [IFStream.advance, IFStream.fail, hf]),
        if_neg (by simp [OFStream.fail, hof])]
      have hw2 : (written + 128) % 4294967296 = written + 128 := by
        apply Nat.mod_eq_of_lt
        omega
      rw [hw2, ih (d - 128) (by omega) (written + 128) (file.advance 128)
        { outfile with data := outfile.data ++ slice file.content file.pos 128 } _ (by omega)
        (by omega) hg (Or.inr (by simp only [IFStream.advance]; omega)) hof hoo
        (by simp only [List.length_append, hgot]; omega)]
      have hdiv : d / 128 = (d - 128) / 128 + 1 := by omega
      have hmod : d % 128 = (d - 128) % 128 := by omega
      have hsl : slice file.content file.pos 128 ++ slice file.content (file.pos + 128) (d - 128)
          = slice file.content file.pos d := by
        have h128 : 128 + (d - 128) = d := by omega
        rw [slice_append, h128]
      have hpos : file.pos + 128 + (d - 128) = file.pos + d := by omega
      simp only [IFStream.advance, List.append_assoc, hsl, hdiv, hmod, hpos,
        List.replicate_succ, List.singleton_append, List.cons_append, List.nil_append]

/-- The method `extractFile` on a stream that has not failed, for an entry whose payload
lies within the source (or is empty) and whose sink opens and accepts the payload. -/
theorem extractFile_ok (fs : SinkEnv) (self : MPCFile) (e : MPCDirEntry) (room : Nat)
    (hl : e.length < 4294967296) (hf : self.file.fail = false)
    (hs : fs (sinkName e) = some room)
    (hb : e.length = 0 ∨ e.offset + e.length ≤ self.file.content.length)
    (hroom : e.length ≤ room) :
    self.extractFile fs e =
      ⟨none,
       { self with file :=
          { self.file with pos := e.offset + e.length, eofbit := false,
                           reads := self.file.reads ++
                             (List.replicate (e.length / 128) 128 ++ [e.length % 128]) } },
       some (expectedSink fs self.file.content e)⟩ := by
  have hopen : OFStream.opened fs (sinkName e) =
      { name := sinkName e, is_open := true, room := room, data := [], failbit := false } := by
    simp [OFStream.opened, hs]
  have hfb : self.file.failbit = false := hf
  have hseek : self.file.seekg e.offset = { self.file with pos := e.offset, eofbit := false } := by
    simp [IFStream.seekg, hf]
  unfold MPCFile.extractFile
  rw [hopen, hseek]
  rw [if_neg (by simp)]
  simp only []
  rw [copyLoop_ok e.length hl e.length 0 _ _ _ (by omega) (by omega)
    (by simp [IFStream.good, hfb]) hb rfl rfl (by simpa using hroom)]
  simp [expectedSink, hs]

theorem extractFile_no_sink (fs : SinkEnv) (self : MPCFile) (e : MPCDirEntry)
    (hs : fs (sinkName e) = none) :
    self.extractFile fs e = ⟨some .WRITE, self, none⟩ := by
  unfold MPCFile.extractFile
  simp [OFStream.opened, hs]

theorem extractFile_sink (fs : SinkEnv) (self : MPCFile) (e : MPCDirEntry) (room : Nat)
    (hs : fs (sinkName e) = some room) :
    ∃ o, (self.extractFile fs e).outfile = some o := by
  unfold MPCFile.extractFile
  simp [OFStream.opened, hs]

theorem OFStream.write_name (o : OFStream) (buf : List Byte) (n : Nat) :
    (o.write buf n).name = o.name := by
  unfold OFStream.write
  split_ifs <;> rfl

/-- The copy loop never renames the sink. -/
theorem copyLoop_name (length : Nat) (d : Nat) :
    ∀ (written : Nat) (file : IFStream) (outfile : OFStream) (buf : List Byte),
      u32sub length written = d →
      (copyLoop length written file outfile buf).outfile.name = outfile.name := by
  induction d using Nat.strong_induction_on with
  | _ d ih =>
    intro written file outfile buf hd
    rw [copyLoop]
    by_cases hlt : u32sub length written < 128
    · rw [dif_pos hlt]
      split_ifs
      · rfl
      · exact OFStream.write_name _ _ _
      · exact OFStream.write_name _ _ _
    · rw [dif_neg hlt]
      split_ifs
      · rfl
      · exact OFStream.write_name _ _ _
      · rw [ih (u32sub length ((written + 128) % 4294967296))
          (by
            simp only [u32sub] at hd hlt ⊢
            omega) _ _ _ _ rfl]
        exact OFStream.write_name _ _ _

theorem extractFile_sink_name (fs : SinkEnv) (self : MPCFile) (e : MPCDirEntry)
    (o : OFStream) (h : (self.extractFile fs e).outfile = some o) : o.name = sinkName e := by
  cases hs : fs (sinkName e) with
  | none =>
    rw [extractFile_no_sink fs self e hs] at h
    cases h
  | some room =>
    have hopen : OFStream.opened fs (sinkName e) =
        { name := sinkName e, is_open := true, room := room, data := [], failbit := false } := by
      simp [OFStream.opened, hs]
    unfold MPCFile.extractFile at h
    rw [hopen, if_neg (by simp)] at h
    simp only [Option.some.injEq] at h
    rw [← h, copyLoop_name _ _ _ _ _ _ rfl]

theorem cstr_append_of_mem (a b : List Byte) (h : (0 : Byte) ∈ a) : cstr (a ++ b) = cstr a := by
  induction a with
  | nil => simp at h
  | cons x xs ih =>
    unfold cstr at ih ⊢
    by_cases hx : x = 0
    · have hd : decide (x ≠ 0) = false := decide_eq_false (by simp [hx])
      simp only [List.cons_append, List.takeWhile_cons, hd, Bool.false_eq_true, if_false]
    · have hmem : (0 : Byte) ∈ xs := by
        rcases List.mem_cons.1 h with h0 | h0
        · exact absurd h0.symm hx
        · exact h0
      have hd : decide (x ≠ 0) = true := decide_eq_true hx
      simp only [List.cons_append, List.takeWhile_cons, hd, if_true]
      rw [ih hmem]

theorem sinkName_of_nul (e : MPCDirEntry) (h : (0 : Byte) ∈ e.name) :
    sinkName e = cstr e.name := by
  unfold sinkName MPCDirEntry.image
  rw [List.append_assoc, List.append_assoc, List.append_assoc]
  exact cstr_append_of_mem _ _ h

theorem IFStream.read_congr (s t : IFStream) (n : Nat) (h : sameUpToLog s t) :
    sameUpToLog (s.read n).1 (t.read n).1 ∧ (s.read n).2 = (t.read n).2 := by
  obtain ⟨hc, hp, he, hf⟩ := h
  unfold IFStream.read IFStream.good
  rw [hc, hp, he, hf]
  split_ifs <;> simp [sameUpToLog, hc, hp, he, hf]

theorem IFStream.read_congr_fail (s t : IFStream) (n : Nat) (h : sameUpToLog s t) :
    (s.read n).1.fail = (t.read n).1.fail :=
  (IFStream.read_congr s t n h).1.2.2.2

/-- The copy loop does not depend on the log of earlier `read` calls. -/
theorem copyLoop_congr (length : Nat) (d : Nat) :
    ∀ (written : Nat) (f1 f2 : IFStream) (outfile : OFStream) (buf : List Byte),
      u32sub length written = d → sameUpToLog f1 f2 →
      (copyLoop length written f1 outfile buf).thrown
        = (copyLoop length written f2 outfile buf).thrown ∧
      (copyLoop length written f1 outfile buf).outfile
        = (copyLoop length written f2 outfile buf).outfile ∧
      sameUpToLog (copyLoop length written f1 outfile buf).file
        (copyLoop length written f2 outfile buf).file := by
  induction d using Nat.strong_induction_on with
  | _ d ih =>
    intro written f1 f2 outfile buf hd hsame
    rw [copyLoop.eq_def length written f1, copyLoop.eq_def length written f2]
    by_cases hlt : u32sub length written < 128
    · rw [dif_pos hlt, dif_pos hlt]
      obtain ⟨hs, hgot⟩ := IFStream.read_congr f1 f2 (u32sub length written) hsame
      have hfail := IFStream.read_congr_fail f1 f2 (u32sub length written) hsame
      rw [hgot, hfail]
      split_ifs <;> exact ⟨rfl, rfl, hs⟩
    · rw [dif_neg hlt, dif_neg hlt]
      obtain ⟨hs, hgot⟩ := IFStream.read_congr f1 f2 128 hsame
      have hfail := IFStream.read_congr_fail f1 f2 128 hsame
      rw [hgot, hfail]
      split_ifs
      · exact ⟨rfl, rfl, hs⟩
      · exact ⟨rfl, rfl, hs⟩
      · exact ih (u32sub length ((written + 128) % 4294967296))
          (by
            simp only [u32sub] at hd hlt ⊢
            omega) _ _ _ _ _ rfl hs

/-- On a stream that has failed the copy loop throws `READ` at its first read and leaves
the sink untouched. -/
theorem copyLoop_failed (length written : Nat) (file : IFStream) (outfile : OFStream)
    (buf : List Byte) (hf : file.fail = true) :
    (copyLoop length written file outfile buf).thrown = some .READ ∧
    (copyLoop length written file outfile buf).outfile = outfile ∧
    (copyLoop length written file outfile buf).file.fail = true ∧
    (copyLoop length written file outfile buf).file.content = file.content := by
  rw [copyLoop]
  by_cases hlt : u32sub length written < 128
  · rw [dif_pos hlt, if_pos (IFStream.read_fail_sticky _ _ hf)]
    exact ⟨rfl, rfl, IFStream.read_fail_sticky _ _ hf, IFStream.read_content _ _⟩
  · rw [dif_neg hlt, if_pos (IFStream.read_fail_sticky _ _ hf)]
    exact ⟨rfl, rfl, IFStream.read_fail_sticky _ _ hf, IFStream.read_content _ _⟩

theorem IFStream.read_good_of_not_fail (s : IFStream) (n : Nat) (hg : s.good = true)
    (h : (s.read n).1.fail = false) : (s.read n).1.good = true := by
  unfold IFStream.read at h ⊢
  rw [if_pos hg] at h ⊢
  split_ifs at h ⊢ with hs
  · simp [IFStream.fail] at h
  · exact hg

/-- On a good stream the copy loop keeps the content, and leaves the stream failed exactly
when it throws `READ`; otherwise the stream is still good. -/
theorem copyLoop_post (length : Nat) (d : Nat) :
    ∀ (written : Nat) (file : IFStream) (outfile : OFStream) (buf : List Byte),
      u32sub length written = d → file.good = true →
      (copyLoop length written file outfile buf).file.content = file.content ∧
      ((copyLoop length written file outfile buf).thrown = some .READ →
        (copyLoop length written file outfile buf).file.fail = true) ∧
      ((copyLoop length written file outfile buf).thrown ≠ some .READ →
        (copyLoop length written file outfile buf).file.good = true) := by
  induction d using Nat.strong_induction_on with
  | _ d ih =>
    intro written file outfile buf hd hg
    rw [copyLoop]
    by_cases hlt : u32sub length written < 128
    · rw [dif_pos hlt]
      by_cases hr : (file.read (u32sub length written)).1.fail = true
      · rw [if_pos hr]
        exact ⟨IFStream.read_content _ _, fun _ => hr, fun h => absurd rfl h⟩
      · have hr2 : (file.read (u32sub length written)).1.fail = false := by simpa using hr
        have hg2 := IFStream.read_good_of_not_fail _ _ hg hr2
        rw [if_neg hr]
        split_ifs
        · refine ⟨IFStream.read_content _ _, fun h => ?_, fun _ => hg2⟩
          simp at h
        · refine ⟨IFStream.read_content _ _, fun h => ?_, fun _ => hg2⟩
          simp at h
    · rw [dif_neg hlt]
      by_cases hr : (file.read 128).1.fail = true
      · rw [if_pos hr]
        exact ⟨IFStream.read_content _ _, fun _ => hr, fun h => absurd rfl h⟩
      · have hr2 : (file.read 128).1.fail = false := by simpa using hr
        have hg2 := IFStream.read_good_of_not_fail _ _ hg hr2
        rw [if_neg hr]
        split_ifs
        · refine ⟨IFStream.read_content _ _, fun h => ?_, fun _ => hg2⟩
          simp at h
        · have := ih (u32sub length ((written + 128) % 4294967296))
            (by
              simp only [u32sub] at hd hlt ⊢
              omega) ((written + 128) % 4294967296) (file.read 128).1
            (outfile.write (store buf (file.read 128).2) 128) (store buf (file.read 128).2)
            rfl hg2
          rw [IFStream.read_content] at this
          exact this

theorem IFStream.seekg_of_not_fail (s : IFStream) (p : Nat) (hf : s.fail = false) :
    s.seekg p = { s with pos := p, eofbit := false } := by
  simp [IFStream.seekg, hf]

theorem IFStream.seekg_fail (s : IFStream) (p : Nat) : (s.seekg p).fail = s.fail := by
  unfold IFStream.seekg
  split_ifs <;> rfl

theorem IFStream.seekg_good (s : IFStream) (p : Nat) (hf : s.fail = false) :
    (s.seekg p).good = true := by
  rw [IFStream.seekg_of_not_fail s p hf]
  have : s.failbit = false := hf
  simp [IFStream.good, this]

theorem OFStream.opened_of_some (fs : SinkEnv) (path : List Byte) (room : Nat)
    (h : fs path = some room) :
    OFStream.opened fs path =
      { name := path, is_open := true, room := room, data := [], failbit := false } := by
  simp [OFStream.opened, h]

/-- When the sink opens, `extractFile` is the seek followed by the copy loop. -/
theorem extractFile_of_sink (fs : SinkEnv) (self : MPCFile) (e : MPCDirEntry) (room : Nat)
    (hs : fs (sinkName e) = some room) :
    self.extractFile fs e =
      ⟨(copyLoop e.length 0 (self.file.seekg e.offset)
          (OFStream.opened fs (sinkName e)) (List.replicate 128 0)).thrown,
       { self with file := (copyLoop e.length 0 (self.file.seekg e.offset)
          (OFStream.opened fs (sinkName e)) (List.replicate 128 0)).file },
       some (copyLoop e.length 0 (self.file.seekg e.offset)
          (OFStream.opened fs (sinkName e)) (List.replicate 128 0)).outfile⟩ := by
  unfold MPCFile.extractFile
  rw [if_neg (by simp [OFStream.opened_of_some fs _ room hs])]

/-- When the sink opens, the outcome of `extractFile` is made of the three components
of the state the copy loop ends in. -/
theorem extractFile_of_sink_state (fs : SinkEnv) (self : MPCFile) (e : MPCDirEntry)
    (room : Nat) (hs : fs (sinkName e) = some room) :
    ∃ r : CopyState,
      copyLoop e.length 0 (self.file.seekg e.offset)
        (OFStream.opened fs (sinkName e)) (List.replicate 128 0) = r ∧
      self.extractFile fs e = ⟨r.thrown, { self with file := r.file }, some r.outfile⟩ :=
  ⟨_, rfl, extractFile_of_sink fs self e room hs⟩

/-- The method `extractFile` never changes the directory, the header, the entry count or
the content of the source. -/
theorem extractFile_frame (fs : SinkEnv) (self : MPCFile) (e : MPCDirEntry) :
    (self.extractFile fs e).self.dir = self.dir ∧
    (self.extractFile fs e).self.header = self.header ∧
    (self.extractFile fs e).self.num_files = self.num_files ∧
    (self.extractFile fs e).self.file.content = self.file.content := by
  cases hs : fs (sinkName e) with
  | none =>
    rw [extractFile_no_sink fs self e hs]
    exact ⟨rfl, rfl, rfl, rfl⟩
  | some room =>
    obtain ⟨r, hr, hx⟩ := extractFile_of_sink_state fs self e room hs
    have hcont : r.file.content = self.file.content := by
      rw [← hr]
      cases hf : self.file.fail with
      | true =>
        rw [(copyLoop_failed _ _ _ _ _ (by rw [IFStream.seekg_fail, hf])).2.2.2,
          IFStream.seekg_content]
      | false =>
        rw [(copyLoop_post e.length _ 0 _ _ _ rfl (IFStream.seekg_good _ _ hf)).1,
          IFStream.seekg_content]
    rw [hx]
    exact ⟨rfl, rfl, rfl, hcont⟩

/-- The failure flag of the source after `extractFile`: set after a `READ`, otherwise as
before the call. -/
theorem extractFile_post_fail (fs : SinkEnv) (self : MPCFile) (e : MPCDirEntry) :
    ((self.extractFile fs e).thrown = some .READ →
      (self.extractFile fs e).self.file.fail = true) ∧
    ((self.extractFile fs e).thrown ≠ some .READ →
      (self.extractFile fs e).self.file.fail = self.file.fail) := by
  cases hs : fs (sinkName e) with
  | none =>
    rw [extractFile_no_sink fs self e hs]
    refine ⟨fun h => ?_, fun _ => rfl⟩
    simp at h
  | some room =>
    obtain ⟨r, hr, hx⟩ := extractFile_of_sink_state fs self e room hs
    have hkey : (r.thrown = some .READ → r.file.fail = true) ∧
        (r.thrown ≠ some .READ → r.file.fail = self.file.fail) := by
      cases hf : self.file.fail with
      | true =>
        have hc := copyLoop_failed e.length 0 (self.file.seekg e.offset)
          (OFStream.opened fs (sinkName e)) (List.replicate 128 0)
          (by rw [IFStream.seekg_fail, hf])
        rw [hr] at hc
        exact ⟨fun _ => hc.2.2.1, fun h => absurd hc.1 h⟩
      | false =>
        have hc := copyLoop_post e.length _ 0 (self.file.seekg e.offset)
          (OFStream.opened fs (sinkName e)) (List.replicate 128 0) rfl
          (IFStream.seekg_good _ _ hf)
        rw [hr] at hc
        refine ⟨hc.2.1, fun h => ?_⟩
        have hg := hc.2.2 h
        simp only [IFStream.good, IFStream.fail] at hg ⊢
        cases hb : r.file.failbit with
        | false => rfl
        | true =>
          rw [hb] at hg
          simp at hg
    rw [hx]
    exact hkey

/-- The outcome and the sink of `extractFile` depend on the object only through the content
of the source and its failure flag, not through the read position or the log. -/
theorem extractFile_congr (fs : SinkEnv) (s1 s2 : MPCFile) (e : MPCDirEntry)
    (hc : s1.file.content = s2.file.content) (hf : s1.file.fail = s2.file.fail) :
    (s1.extractFile fs e).thrown = (s2.extractFile fs e).thrown ∧
    (s1.extractFile fs e).outfile = (s2.extractFile fs e).outfile := by
  cases hs : fs (sinkName e) with
  | none =>
    rw [extractFile_no_sink fs s1 e hs, extractFile_no_sink fs s2 e hs]
    exact ⟨rfl, rfl⟩
  | some room =>
    obtain ⟨r1, hr1, hx1⟩ := extractFile_of_sink_state fs s1 e room hs
    obtain ⟨r2, hr2, hx2⟩ := extractFile_of_sink_state fs s2 e room hs
    have hkey : r1.thrown = r2.thrown ∧ r1.outfile = r2.outfile := by
      cases hf2 : s2.file.fail with
      | true =>
        have hf1 : s1.file.fail = true := by rw [hf, hf2]
        have h1 := copyLoop_failed e.length 0 (s1.file.seekg e.offset)
          (OFStream.opened fs (sinkName e)) (List.replicate 128 0)
          (by rw [IFStream.seekg_fail, hf1])
        have h2 := copyLoop_failed e.length 0 (s2.file.seekg e.offset)
          (OFStream.opened fs (sinkName e)) (List.replicate 128 0)
          (by rw [IFStream.seekg_fail, hf2])
        rw [hr1] at h1
        rw [hr2] at h2
        exact ⟨h1.1.trans h2.1.symm, h1.2.1.trans h2.2.1.symm⟩
      | false =>
        have hf1 : s1.file.fail = false := by rw [hf, hf2]
        have hsame : sameUpToLog (s1.file.seekg e.offset) (s2.file.seekg e.offset) := by
          rw [IFStream.seekg_of_not_fail _ _ hf1, IFStream.seekg_of_not_fail _ _ hf2]
          have h1 : s1.file.failbit = false := hf1
          have h2 : s2.file.failbit = false := hf2
          exact ⟨hc, rfl, rfl, by rw [h1, h2]⟩
        have hx := copyLoop_congr e.length _ 0 _ _ (OFStream.opened fs (sinkName e))
          (List.replicate 128 0) rfl hsame
        rw [hr1, hr2] at hx
        exact ⟨hx.1, hx.2.1⟩
    rw [hx1, hx2]
    exact ⟨hkey.1, congrArg some hkey.2⟩

/-- On a source stream that has failed, `extractFile` throws `READ` as soon as its sink is
open, and leaves the sink empty. -/
theorem extractFile_failed (fs : SinkEnv) (self : MPCFile) (e : MPCDirEntry) (room : Nat)
    (hf : self.file.fail = true) (hs : fs (sinkName e) = some room) :
    (self.extractFile fs e).thrown = some .READ ∧
    (self.extractFile fs e).outfile =
      some { name := sinkName e, is_open := true, room := room, data := [],
             failbit := false } := by
  obtain ⟨r, hr, hx⟩ := extractFile_of_sink_state fs self e room hs
  have hc := copyLoop_failed e.length 0 (self.file.seekg e.offset)
    (OFStream.opened fs (sinkName e)) (List.replicate 128 0)
    (by rw [IFStream.seekg_fail, hf])
  rw [hr, OFStream.opened_of_some fs _ room hs] at hc
  rw [hx]
  exact ⟨hc.1, congrArg some hc.2.1⟩

/-- The copy loop on a good stream that does not hold all the bytes still to be copied,
with a sink that would accept them: it throws `READ`. -/
theorem copyLoop_short (length : Nat) (hl : length < 4294967296) (d : Nat) :
    ∀ (written : Nat) (file : IFStream) (outfile : OFStream) (buf : List Byte),
      d = length - written → written ≤ length → 0 < d → file.good = true →
      file.content.length < file.pos + d →
      outfile.failbit = false → outfile.is_open = true →
      outfile.data.length + d ≤ outfile.room →
      (copyLoop length written file outfile buf).thrown = some .READ := by
  induction d using Nat.strong_induction_on with
  | _ d ih =>
    intro written file outfile buf hd hw hpos hg hshort hof hoo hroom
    have hsub : u32sub length written = d := by
      rw [u32sub_eq length written hl hw, hd]
    rw [copyLoop]
    simp only [hsub]
    by_cases hlt : d < 128
    · have hfail : (file.read d).1.fail = true := by
        cases hx : (file.read d).1.fail with
        | true => rfl
        | false =>
          have := ((IFStream.read_fail_iff file d).1 hx).2
          omega
      rw [dif_pos hlt, if_pos hfail]
    · rw [dif_neg hlt]
      by_cases hb : file.pos + 128 ≤ file.content.length
      · rw [IFStream.read_eq_advance file 128 hg hb]
        simp only []
        have hgot : (slice file.content file.pos 128).length = 128 :=
          slice_length _ _ _ hb
        rw [OFStream.write_ok outfile _ 128 hof hoo (by omega), store_take _ _ _ hgot]
        have hf : file.failbit = false := by
          simp [IFStream.good] at hg
          exact hg.2
        rw [if_neg (by simp [IFStream.advance, IFStream.fail, hf]),
          if_neg (by simp [OFStream.fail, hof])]
        have hw2 : (written + 128) % 4294967296 = written + 128 := by
          apply Nat.mod_eq_of_lt
          omega
        rw [hw2]
        exact ih (d - 128) (by omega) (written + 128) (file.advance 128)
          { outfile with data := outfile.data ++ slice file.content file.pos 128 } _
          (by omega) (by omega) (by omega) hg
          (by
            show file.content.length < file.pos + 128 + (d - 128)
            omega)
          hof hoo
          (by simp only [List.length_append, hgot]; omega)
      · have hfail : (file.read 128).1.fail = true := by
          cases hx : (file.read 128).1.fail with
          | true => rfl
          | false =>
            have := ((IFStream.read_fail_iff file 128).1 hx).2
            omega
        rw [if_pos hfail]

/-- The method `extractFile` on a stream that has not failed, for a non-empty entry whose
payload range ends beyond the source, with a sink that opens and would accept it. -/
theorem extractFile_short (fs : SinkEnv) (self : MPCFile) (e : MPCDirEntry) (room : Nat)
    (hl : e.length < 4294967296) (hpos : 0 < e.length) (hf : self.file.fail = false)
    (hs : fs (sinkName e) = some room) (hroom : e.length ≤ room)
    (hover : self.file.content.length < e.offset + e.length) :
    (self.extractFile fs e).thrown = some .READ := by
  obtain ⟨r, hr, hx⟩ := extractFile_of_sink_state fs self e room hs
  have hc := copyLoop_short e.length hl e.length 0
    { self.file with pos := e.offset, eofbit := false }
    { name := sinkName e, is_open := true, room := room, data := [], failbit := false }
    (List.replicate 128 0) (by omega) (by omega) hpos
    (by
      have : self.file.failbit = false := hf
      simp [IFStream.good, this])
    hover rfl rfl (by simpa using hroom)
  rw [← IFStream.seekg_of_not_fail _ _ hf, ← OFStream.opened_of_some fs _ room hs, hr] at hc
  rw [hx]
  exact hc

/-- The state of the copy loop after `k` full iterations: the counter holds `128 * k`,
`k` reads of 128 bytes were issued and their bytes appended to the sink. -/
theorem copyLoop_unroll (length : Nat) (hl : length < 4294967296) (file : IFStream)
    (outfile : OFStream) (buf : List Byte) (hg : file.good = true)
    (hsrc : file.pos + length ≤ file.content.length)
    (hof : outfile.failbit = false) (hoo : outfile.is_open = true)
    (hroom : outfile.data.length + length ≤ outfile.room) (k : Nat) (hk : 128 * k ≤ length) :
    ∃ bk, copyLoop length 0 file outfile buf =
      copyLoop length (128 * k)
        { file with pos := file.pos + 128 * k, reads := file.reads ++ List.replicate k 128 }
        { outfile with data := outfile.data ++ slice file.content file.pos (128 * k) } bk := by
  induction k with
  | zero =>
    refine ⟨buf, ?_⟩
    simp [slice]
  | succ k ih =>
    obtain ⟨bk, hbk⟩ := ih (by omega)
    have hsub : u32sub length (128 * k) = length - 128 * k :=
      u32sub_eq length (128 * k) hl (by omega)
    have hge : ¬ (length - 128 * k < 128) := by omega
    have hf : file.failbit = false := by
      simp [IFStream.good] at hg
      exact hg.2
    have hread := IFStream.read_eq_advance
      { file with pos := file.pos + 128 * k, reads := file.reads ++ List.replicate k 128 } 128
      hg (by show file.pos + 128 * k + 128 ≤ file.content.length; omega)
    have hgot : (slice file.content (file.pos + 128 * k) 128).length = 128 :=
      slice_length _ _ _ (by omega)
    have hwrite := OFStream.write_ok
      { outfile with data := outfile.data ++ slice file.content file.pos (128 * k) }
      (store bk (slice file.content (file.pos + 128 * k) 128)) 128 hof hoo
      (by
        have := slice_length file.content file.pos (128 * k) (by omega)
        simp only [List.length_append, this]
        omega)
    rw [hbk, copyLoop]
    simp only [hsub]
    rw [dif_neg hge, hread]
    simp only []
    rw [hwrite, store_take _ _ _ hgot,
      if_neg (by simp [IFStream.advance, IFStream.fail, hf]),
      if_neg (by simp [OFStream.fail, hof])]
    have hw2 : (128 * k + 128) % 4294967296 = 128 * (k + 1) := by
      rw [Nat.mod_eq_of_lt (by omega)]
      omega
    have hsl : slice file.content file.pos (128 * k) ++ slice file.content (file.pos + 128 * k) 128
        = slice file.content file.pos (128 * (k + 1)) := by
      have h128 : 128 * k + 128 = 128 * (k + 1) := by omega
      rw [slice_append, h128]
    have hpos : file.pos + 128 * k + 128 = file.pos + 128 * (k + 1) := by omega
    refine ⟨store bk (slice file.content (file.pos + 128 * k) 128), ?_⟩
    simp only [IFStream.advance, hw2, List.append_assoc, hsl, hpos, List.replicate_succ']

/-- The copy loop throws nothing but `READ` and `WRITE`. -/
theorem copyLoop_thrown_cases (length : Nat) (d : Nat) :
    ∀ (written : Nat) (file : IFStream) (outfile : OFStream) (buf : List Byte),
      u32sub length written = d →
      (copyLoop length written file outfile buf).thrown = none ∨
      (copyLoop length written file outfile buf).thrown = some .READ ∨
      (copyLoop length written file outfile buf).thrown = some .WRITE := by
  induction d using Nat.strong_induction_on with
  | _ d ih =>
    intro written file outfile buf hd
    rw [copyLoop]
    by_cases hlt : u32sub length written < 128
    · rw [dif_pos hlt]
      split_ifs
      · exact Or.inr (Or.inl rfl)
      · exact Or.inr (Or.inr rfl)
      · exact Or.inl rfl
    · rw [dif_neg hlt]
      split_ifs
      · exact Or.inr (Or.inl rfl)
      · exact Or.inr (Or.inr rfl)
      · exact ih (u32sub length ((written + 128) % 4294967296))
          (by
            simp only [u32sub] at hd hlt ⊢
            omega) _ _ _ _ rfl

theorem extractFile_thrown_cases (fs : SinkEnv) (self : MPCFile) (e : MPCDirEntry) :
    (self.extractFile fs e).thrown = none ∨
    (self.extractFile fs e).thrown = some .READ ∨
    (self.extractFile fs e).thrown = some .WRITE := by
  cases hs : fs (sinkName e) with
  | none =>
    rw [extractFile_no_sink fs self e hs]
    exact Or.inr (Or.inr rfl)
  | some room =>
    obtain ⟨r, hr, hx⟩ := extractFile_of_sink_state fs self e room hs
    have hc := copyLoop_thrown_cases e.length _ 0 (self.file.seekg e.offset)
      (OFStream.opened fs (sinkName e)) (List.replicate 128 0) rfl
    rw [hr] at hc
    rw [hx]
    exact hc

theorem sum_chunks (n m : Nat) : (List.replicate n 128 ++ [m]).sum = 128 * n + m := by
  rw [List.sum_append, List.sum_replicate]
  simp
  omega

/-! ## Lemmas on the files a run leaves -/

/-- C2: when the constructor succeeds, `getDirectory()` has exactly
`getNumberOfDirEntries()` entries, and entry `i` is the decoding of the 80 bytes that
start at `dir_offset + 4 + 80 * i`, the position the constructor seeks to plus the
four bytes of the entry count: the name is bytes 0..63, then come offset, length and the
two unknown words, little-endian, without padding between entries. -/
theorem C2_directory_table (src : Source) (uninit : List Byte) (mpc : MPCFile)
    (h : MPCFile.new src uninit = .ok mpc) :
    ∃ c, src = .readable c ∧
      mpc.getDirectory.length = mpc.getNumberOfDirEntries ∧
      ∀ i, i < mpc.getNumberOfDirEntries →
        mpc.header.dir_offset + 4 + 80 * i + 80 ≤ c.length ∧
        ∃ e, mpc.getDirectory[i]? = some e ∧
          e.name = slice c (mpc.header.dir_offset + 4 + 80 * i) 64 ∧
          e.offset = le32 (slice c (mpc.header.dir_offset + 4 + 80 * i + 64) 4) ∧
          e.length = le32 (slice c (mpc.header.dir_offset + 4 + 80 * i + 68) 4) ∧
          e.unknown1 = le32 (slice c (mpc.header.dir_offset + 4 + 80 * i + 72) 4) ∧
          e.unknown2 = le32 (slice c (mpc.header.dir_offset + 4 + 80 * i + 76) 4) := by
  obtain ⟨c, hsrc, _, _, _, _, hdir, hlen, _⟩ := new_ok_inv src uninit mpc h
  refine ⟨c, hsrc, ?_, ?_⟩
  · simp only [MPCFile.getDirectory, MPCFile.getNumberOfDirEntries]
    rw [hdir, decodeDirectory_length]
  · intro i hi
    simp only [MPCFile.getDirectory, MPCFile.getNumberOfDirEntries] at hi ⊢
    have hb : mpc.header.dir_offset + 4 + 80 * mpc.num_files ≤ c.length := by
      rcases hlen with h0 | hb
      · omega
      · exact hb
    refine ⟨by omega, decodeEntry (slice c (mpc.header.dir_offset + 4 + 80 * i) 80), ?_, ?_⟩
    · rw [hdir]
      exact decodeDirectory_getElem? c _ _ i hi
    · simp only [decodeEntry]
      refine ⟨slice_take _ _ 80 64 (by omega), ?_, ?_, ?_, ?_⟩
      · exact (le32_slice c _ 80 64 (by omega)).symm
      · exact (le32_slice c _ 80 68 (by omega)).symm
      · exact (le32_slice c _ 80 72 (by omega)).symm
      · exact (le32_slice c _ 80 76 (by omega)).symm

/-- Witness of C2 on `oneEntryContainer`. -/
theorem C2_directory_table_witness :
    MPCFile.new (.readable oneEntryContainer) [] = .ok oneEntryFile ∧
    ∃ c, Source.readable oneEntryContainer = .readable c ∧
      oneEntryFile.getDirectory.length = oneEntryFile.getNumberOfDirEntries ∧
      ∀ i, i < oneEntryFile.getNumberOfDirEntries →
        oneEntryFile.header.dir_offset + 4 + 80 * i + 80 ≤ c.length ∧
        ∃ e, oneEntryFile.getDirectory[i]? = some e ∧
          e.name = slice c (oneEntryFile.header.dir_offset + 4 + 80 * i) 64 ∧
          e.offset = le32 (slice c (oneEntryFile.header.dir_offset + 4 + 80 * i + 64) 4) ∧
          e.length = le32 (slice c (oneEntryFile.header.dir_offset + 4 + 80 * i + 68) 4) ∧
          e.unknown1 = le32 (slice c (oneEntryFile.header.dir_offset + 4 + 80 * i + 72) 4) ∧
          e.unknown2 = le32 (slice c (oneEntryFile.header.dir_offset + 4 + 80 * i + 76) 4) :=
  ⟨rfl, C2_directory_table (.readable oneEntryContainer) [] oneEntryFile rfl⟩

/-- C3 (the code departs from the claim): on `relativeContainer` the directory offset field
holds 8 and the four bytes at 12 + 8 hold the entry count 1, but the constructor seeks to
the absolute position 8, reads the entry count 0 from bytes 8..11 and returns an empty
directory. -/
theorem C3_count_read_at_absolute_offset :
    le32 (slice relativeContainer 4 4) = 8 ∧
    le32 (slice relativeContainer (12 + 8) 4) = 1 ∧
    le32 (slice relativeContainer 8 4) = 0 ∧
    (built (MPCFile.new (.readable relativeContainer) [])).map MPCFile.getNumberOfDirEntries
      = some 0 ∧
    (built (MPCFile.new (.readable relativeContainer) [])).map MPCFile.getDirectory
      = some [] := by
  decide

/-- C4: on a source of at least four bytes the constructor throws `FTYPE` exactly when the
first four bytes are not 'M','P','C','U', whatever follows; and when it does, the only
`read` issued on the source is the four-byte read of the signature. -/
theorem C4_signature_check (c uninit : List Byte) (h : 4 ≤ c.length) :
    (thrownCode (MPCFile.new (.readable c) uninit) = some .FTYPE ↔
      c.take 4 ≠ signatureBytes) ∧
    (c.take 4 ≠ signatureBytes →
      ∃ st, thrownFile (MPCFile.new (.readable c) uninit) = some st ∧
        st.reads = [4] ∧ st.pos = 4) := by
  constructor
  · constructor
    · intro hf hs
      exact new_good_signature_code c uninit h hs hf
    · intro hs
      rw [new_bad_signature c uninit h hs]
      rfl
  · intro hs
    rw [new_bad_signature c uninit h hs]
    exact ⟨_, rfl, rfl, rfl⟩

/-- Witness of C4 on a five-byte source that starts with a NUL byte. -/
theorem C4_signature_check_witness :
    4 ≤ ([0, 80, 67, 85, 9] : List Byte).length ∧
    ((thrownCode (MPCFile.new (.readable [0, 80, 67, 85, 9]) []) = some .FTYPE ↔
      ([0, 80, 67, 85, 9] : List Byte).take 4 ≠ signatureBytes) ∧
    (([0, 80, 67, 85, 9] : List Byte).take 4 ≠ signatureBytes →
      ∃ st, thrownFile (MPCFile.new (.readable [0, 80, 67, 85, 9]) []) = some st ∧
        st.reads = [4] ∧ st.pos = 4)) :=
  ⟨by decide, C4_signature_check [0, 80, 67, 85, 9] [] (by decide)⟩

/-- C5 fails as stated: the four-byte source 0, 0, 0, 0 is shorter than 12 bytes and the
constructor throws `FTYPE`, not `READ`. -/
theorem C5_counterexample :
    ¬ (([0, 0, 0, 0] : List Byte).length < 12 →
      thrownCode (MPCFile.new (.readable [0, 0, 0, 0]) []) = some .READ) := by
  decide

/-- C5 amended: on a source shorter than 12 bytes the constructor always throws; the code
is `READ` when the source is shorter than 4 bytes or starts with the signature, and
`FTYPE` when it has at least 4 bytes that are not the signature. -/
theorem C5_short_source (c uninit : List Byte) (h : c.length < 12) :
    thrownCode (MPCFile.new (.readable c) uninit) =
      if c.length < 4 ∨ c.take 4 = signatureBytes then some .READ else some .FTYPE := by
  by_cases h4 : c.length < 4
  · obtain ⟨st, hst⟩ := new_short_signature c uninit h4
    rw [hst, if_pos (Or.inl h4)]
    rfl
  · by_cases hs : c.take 4 = signatureBytes
    · obtain ⟨st, hst⟩ := new_short_header c uninit (by omega) h hs
      rw [hst, if_pos (Or.inr hs)]
      rfl
    · rw [new_bad_signature c uninit (by omega) hs, if_neg (by tauto)]
      rfl

/-- Witness of C5 amended on the seven-byte source 'M','P','C','U', 1, 2, 3. -/
theorem C5_short_source_witness :
    ([77, 80, 67, 85, 1, 2, 3] : List Byte).length < 12 ∧
    thrownCode (MPCFile.new (.readable [77, 80, 67, 85, 1, 2, 3]) []) =
      if ([77, 80, 67, 85, 1, 2, 3] : List Byte).length < 4 ∨
          ([77, 80, 67, 85, 1, 2, 3] : List Byte).take 4 = signatureBytes
      then some .READ else some .FTYPE :=
  ⟨by decide, C5_short_source [77, 80, 67, 85, 1, 2, 3] [] (by decide)⟩

/-- C6 (the code departs from the claim): the read of the entry count is not followed by a
`fail()` check.  On `headerOnly` (directory offset 100, source of 12 bytes) the read
fails and the outcome depends on what the member `num_files` held before: with zero
bytes the constructor returns an object with an empty directory and a failed stream, with
another content it throws `READ`.  On `headerAndZeros` the entry count that the spec
places at 12 + 12 is past the end of the 16-byte source, and the constructor returns an
empty directory whatever `num_files` held, because it reads the count at byte 12. -/
theorem C6_open_succeeds_past_eof :
    thrownCode (MPCFile.new (.readable headerOnly) [0, 0, 0, 0]) = none ∧
    (built (MPCFile.new (.readable headerOnly) [0, 0, 0, 0])).map MPCFile.getDirectory
      = some [] ∧
    (built (MPCFile.new (.readable headerOnly) [0, 0, 0, 0])).map (fun m => m.file.fail)
      = some true ∧
    thrownCode (MPCFile.new (.readable headerOnly) [1, 0, 0, 0]) = some .READ ∧
    headerAndZeros.length < 12 + le32 (slice headerAndZeros 4 4) + 4 ∧
    thrownCode (MPCFile.new (.readable headerAndZeros) [255, 255, 255, 255]) = none ∧
    (built (MPCFile.new (.readable headerAndZeros) [255, 255, 255, 255])).map
      MPCFile.getDirectory = some [] := by
  decide

/-- C7: on a source with a complete header and a readable entry count `n` (the four bytes
at the position the constructor seeks to), if fewer than `80 * n` bytes follow the entry
count then the constructor throws `READ` and no object is built. -/
theorem C7_truncated_directory (c uninit : List Byte) (h12 : 12 ≤ c.length)
    (hs : c.take 4 = signatureBytes) (hc : le32 (slice c 4 4) + 4 ≤ c.length)
    (hd : c.length - (le32 (slice c 4 4) + 4) < 80 * le32 (slice c (le32 (slice c 4 4)) 4)) :
    thrownCode (MPCFile.new (.readable c) uninit) = some .READ ∧
    built (MPCFile.new (.readable c) uninit) = none := by
  obtain ⟨st, hst⟩ := new_truncated c uninit h12 hs hc (by omega)
  rw [hst]
  exact ⟨rfl, rfl⟩

/-- Witness of C7 on `countOnly`: the entry count is 1 and no byte follows it. -/
theorem C7_truncated_directory_witness :
    (12 ≤ countOnly.length ∧ countOnly.take 4 = signatureBytes ∧
      le32 (slice countOnly 4 4) + 4 ≤ countOnly.length ∧
      countOnly.length - (le32 (slice countOnly 4 4) + 4)
        < 80 * le32 (slice countOnly (le32 (slice countOnly 4 4)) 4)) ∧
    thrownCode (MPCFile.new (.readable countOnly) [9, 9, 9, 9]) = some .READ ∧
    built (MPCFile.new (.readable countOnly) [9, 9, 9, 9]) = none :=
  ⟨by decide, C7_truncated_directory countOnly [9, 9, 9, 9] (by decide) (by decide)
    (by decide) (by decide)⟩

/-- C9 fails as stated: for the entry named "../evil", in a file system where every path
can be opened, `extractFile` creates its sink at the path "../evil". -/
theorem C9_counterexample :
    ¬ (∀ o, (oneEntryFile.extractFile roomy evilEntry).outfile = some o →
      o.name ≠ [46, 46, 47, 101, 118, 105, 108]) := by
  intro h
  have hx := extractFile_ok roomy oneEntryFile evilEntry 1000 (by decide) rfl rfl
    (Or.inr (by decide)) (by decide)
  exact h _ (by rw [hx]) (by decide)

/-- C9 amended: for an entry whose name field contains a NUL, whatever else the name
holds, `extractFile` does no filtering: the path it opens is the raw name, the bytes
before the first NUL.  No sink is created exactly when that path cannot be opened for
writing, and then the call throws `WRITE`; every sink it creates is at that path. -/
theorem C9_sink_at_raw_name (fs : SinkEnv) (self : MPCFile) (e : MPCDirEntry)
    (hnul : (0 : Byte) ∈ e.name) :
    ((self.extractFile fs e).outfile = none ↔ fs (cstr e.name) = none) ∧
    ((self.extractFile fs e).outfile = none → (self.extractFile fs e).thrown = some .WRITE) ∧
    (∀ o, (self.extractFile fs e).outfile = some o → o.name = cstr e.name) := by
  rw [← sinkName_of_nul e hnul]
  refine ⟨⟨?_, ?_⟩, ?_, ?_⟩
  · intro hnone
    cases hs : fs (sinkName e) with
    | none => rfl
    | some room =>
      obtain ⟨o, ho⟩ := extractFile_sink fs self e room hs
      rw [ho] at hnone
      cases hnone
  · intro hs
    rw [extractFile_no_sink fs self e hs]
  · intro hnone
    cases hs : fs (sinkName e) with
    | none => rw [extractFile_no_sink fs self e hs]
    | some room =>
      obtain ⟨o, ho⟩ := extractFile_sink fs self e room hs
      rw [ho] at hnone
      cases hnone
  · intro o ho
    exact extractFile_sink_name fs self e o ho

/-- Witness of C9 amended on the entry named "../evil". -/
theorem C9_sink_at_raw_name_witness :
    (0 : Byte) ∈ evilEntry.name ∧
    (((oneEntryFile.extractFile roomy evilEntry).outfile = none ↔
        roomy (cstr evilEntry.name) = none) ∧
      ((oneEntryFile.extractFile roomy evilEntry).outfile = none →
        (oneEntryFile.extractFile roomy evilEntry).thrown = some .WRITE) ∧
      (∀ o, (oneEntryFile.extractFile roomy evilEntry).outfile = some o →
        o.name = cstr evilEntry.name)) :=
  ⟨by decide, C9_sink_at_raw_name roomy oneEntryFile evilEntry (by decide)⟩

/-- C10 fails as stated: extracting the zero-length `emptyEntry` returns normally with an
empty sink, but the log of `read` calls on the source has grown: `extractFile` called
`read` once, with size zero.  That call is observable: on a stream that has already
failed, as in the object built from `headerOnly`, it makes the same extraction throw
`READ`. -/
theorem C10_counterexample :
    ¬ ((oneEntryFile.extractFile roomy emptyEntry).thrown = none ∧
        (oneEntryFile.extractFile roomy emptyEntry).outfile.map OFStream.data = some [] ∧
        (oneEntryFile.extractFile roomy emptyEntry).self.file.reads
          = oneEntryFile.file.reads) ∧
    MPCFile.new (.readable headerOnly) [0, 0, 0, 0] = .ok failedFile ∧
    (failedFile.extractFile roomy emptyEntry).thrown = some .READ := by
  refine ⟨?_, rfl, ?_⟩
  · have hx := extractFile_ok roomy oneEntryFile emptyEntry 1000 (by decide) rfl rfl
      (Or.inl rfl) (by decide)
    rw [hx]
    decide
  · unfold MPCFile.extractFile
    rw [copyLoop]
    decide

/-- C10 amended: for an entry of length zero, whatever its offset, when the sink opens and
the source stream has not failed, `extractFile` returns normally and leaves an empty
sink; on the source it seeks to the entry's offset and calls `read` exactly once, with
size zero, which consumes no byte. -/
theorem C10_zero_length (fs : SinkEnv) (self : MPCFile) (e : MPCDirEntry) (room : Nat)
    (hzero : e.length = 0) (hsink : fs (sinkName e) = some room)
    (hf : self.file.fail = false) :
    (self.extractFile fs e).thrown = none ∧
    (self.extractFile fs e).outfile.map OFStream.data = some [] ∧
    (self.extractFile fs e).self.file.reads = self.file.reads ++ [0] ∧
    (self.extractFile fs e).self.file.pos = e.offset ∧
    (self.extractFile fs e).self.file.fail = false := by
  rw [extractFile_ok fs self e room (by omega) hf hsink (Or.inl hzero) (by omega)]
  simp [hzero, expectedSink, slice, IFStream.fail]
  exact hf

/-- Witness of C10 amended on `emptyEntry`, whose offset is past the end of the source. -/
theorem C10_zero_length_witness :
    (emptyEntry.length = 0 ∧ roomy (sinkName emptyEntry) = some 1000 ∧
      oneEntryFile.file.fail = false) ∧
    (oneEntryFile.extractFile roomy emptyEntry).thrown = none ∧
    (oneEntryFile.extractFile roomy emptyEntry).outfile.map OFStream.data = some [] ∧
    (oneEntryFile.extractFile roomy emptyEntry).self.file.reads
      = oneEntryFile.file.reads ++ [0] ∧
    (oneEntryFile.extractFile roomy emptyEntry).self.file.pos = emptyEntry.offset ∧
    (oneEntryFile.extractFile roomy emptyEntry).self.file.fail = false :=
  ⟨by decide, C10_zero_length roomy oneEntryFile emptyEntry 1000 rfl rfl rfl⟩

/-- C14: when the path named by the entry cannot be opened for writing, `extractFile`
throws `WRITE` and creates no sink, and the object is exactly as before: the source stream
was neither sought nor read, its position, flags and log of `read` calls are unchanged. -/
theorem C14_sink_open_failure (fs : SinkEnv) (self : MPCFile) (e : MPCDirEntry)
    (h : fs (sinkName e) = none) :
    (self.extractFile fs e).thrown = some .WRITE ∧
    (self.extractFile fs e).outfile = none ∧
    (self.extractFile fs e).self = self ∧
    (self.extractFile fs e).self.file.pos = self.file.pos ∧
    (self.extractFile fs e).self.file.eofbit = self.file.eofbit ∧
    (self.extractFile fs e).self.file.failbit = self.file.failbit ∧
    (self.extractFile fs e).self.file.reads = self.file.reads := by
  rw [extractFile_no_sink fs self e h]
  exact ⟨rfl, rfl, rfl, rfl, rfl, rfl, rfl⟩

/-- Witness of C14: extracting `payloadEntry` where no path can be opened. -/
theorem C14_sink_open_failure_witness :
    noSinks (sinkName payloadEntry) = none ∧
    (oneEntryFile.extractFile noSinks payloadEntry).thrown = some .WRITE ∧
    (oneEntryFile.extractFile noSinks payloadEntry).outfile = none ∧
    (oneEntryFile.extractFile noSinks payloadEntry).self = oneEntryFile ∧
    (oneEntryFile.extractFile noSinks payloadEntry).self.file.pos = oneEntryFile.file.pos ∧
    (oneEntryFile.extractFile noSinks payloadEntry).self.file.eofbit
      = oneEntryFile.file.eofbit ∧
    (oneEntryFile.extractFile noSinks payloadEntry).self.file.failbit
      = oneEntryFile.file.failbit ∧
    (oneEntryFile.extractFile noSinks payloadEntry).self.file.reads
      = oneEntryFile.file.reads :=
  ⟨rfl, C14_sink_open_failure noSinks oneEntryFile payloadEntry rfl⟩

/-- C15 (the code departs from the claim): the literal scenario has the signature, directory
offset 0, the entry count 1 at bytes 12..15 and the entry (offset 16, length 5) at bytes
16..95.  Whether the directory or the payload is written last over bytes 16..20, the
constructor seeks to the absolute position 0, takes the signature bytes as the entry count
1430474829 and throws `READ` when the second 80-byte record runs off the 96-byte source:
no object is built and nothing is extracted. -/
theorem C15_round_trip_scenario_fails :
    (scenarioDirectoryLast.length = 96 ∧ scenarioDirectoryLast.take 4 = signatureBytes ∧
      le32 (slice scenarioDirectoryLast 4 4) = 0 ∧
      le32 (slice scenarioDirectoryLast 12 4) = 1 ∧
      slice scenarioDirectoryLast 16 64 = testBinName ∧
      le32 (slice scenarioDirectoryLast 80 4) = 16 ∧
      le32 (slice scenarioDirectoryLast 84 4) = 5) ∧
    (scenarioPayloadLast.length = 96 ∧ scenarioPayloadLast.take 4 = signatureBytes ∧
      le32 (slice scenarioPayloadLast 4 4) = 0 ∧
      le32 (slice scenarioPayloadLast 12 4) = 1 ∧
      slice scenarioPayloadLast 16 5 = [1, 2, 3, 4, 5] ∧
      le32 (slice scenarioPayloadLast 80 4) = 16 ∧
      le32 (slice scenarioPayloadLast 84 4) = 5) ∧
    le32 (slice scenarioDirectoryLast 0 4) = 1430474829 ∧
    thrownCode (MPCFile.new (.readable scenarioDirectoryLast) [0, 0, 0, 0]) = some .READ ∧
    built (MPCFile.new (.readable scenarioDirectoryLast) [0, 0, 0, 0]) = none ∧
    thrownCode (MPCFile.new (.readable scenarioPayloadLast) [0, 0, 0, 0]) = some .READ ∧
    built (MPCFile.new (.readable scenarioPayloadLast) [0, 0, 0, 0]) = none ∧
    main roomy (.readable scenarioDirectoryLast) [0, 0, 0, 0] = (.READ, []) ∧
    main roomy (.readable scenarioPayloadLast) [0, 0, 0, 0] = (.READ, []) := by
  obtain ⟨s1, h1⟩ := new_truncated scenarioDirectoryLast [0, 0, 0, 0] (by decide) (by decide)
    (by decide) (by decide)
  obtain ⟨s2, h2⟩ := new_truncated scenarioPayloadLast [0, 0, 0, 0] (by decide) (by decide)
    (by decide) (by decide)
  refine ⟨by decide, by decide, by decide, ?_, ?_, ?_, ?_, ?_, ?_⟩
  · rw [h1]
    rfl
  · rw [h1]
    rfl
  · rw [h2]
    rfl
  · rw [h2]
    rfl
  · unfold main
    rw [h1]
  · unfold main
    rw [h2]

/-- C16 (the code departs from the claim): `unterminatedEntry` has a 64-byte name field
without a NUL byte.  The path `extractFile` opens runs past the name field into the first
byte of the offset field (96): it has 65 bytes, and extracting the entry from the object
built on `unterminatedContainer` creates the sink under that 65-byte name. -/
theorem C16_name_runs_into_offset :
    unterminatedEntry.name.length = 64 ∧
    (0 : Byte) ∉ unterminatedEntry.name ∧
    cstr unterminatedEntry.name = List.replicate 64 65 ∧
    sinkName unterminatedEntry = List.replicate 64 65 ++ [96] ∧
    (sinkName unterminatedEntry).length = 65 ∧
    MPCFile.new (.readable unterminatedContainer) [] = .ok unterminatedFile ∧
    unterminatedFile.getDirectory = [unterminatedEntry] ∧
    (unterminatedFile.extractFile roomy unterminatedEntry).thrown = none ∧
    (unterminatedFile.extractFile roomy unterminatedEntry).outfile.map OFStream.name
      = some (List.replicate 64 65 ++ [96]) := by
  have hx := extractFile_ok roomy unterminatedFile unterminatedEntry 1000 (by decide) rfl rfl
    (Or.inr (by decide)) (by decide)
  refine ⟨by decide, by decide, by decide, by decide, by decide, rfl, rfl, ?_, ?_⟩
  · rw [hx]
  · rw [hx]
    decide

/-- C17 (the code departs from the claim): `reservedZero` and `reservedOne` differ only in
byte 8, inside the unknown header word.  Their directory offset is 8, so the constructor
seeks to the absolute position 8 and reads the unknown word as the entry count: on the
first source it returns an object with an empty directory, on the second it throws
`READ`. -/
theorem C17_unknown_word_read_as_count :
    reservedZero.length = 12 ∧ reservedOne.length = 12 ∧
    reservedZero.take 8 = reservedOne.take 8 ∧
    reservedZero.drop 12 = reservedOne.drop 12 ∧
    le32 (slice reservedZero 4 4) = 8 ∧
    thrownCode (MPCFile.new (.readable reservedZero) [0, 0, 0, 0]) = none ∧
    (built (MPCFile.new (.readable reservedZero) [0, 0, 0, 0])).map
      MPCFile.getNumberOfDirEntries = some 0 ∧
    (built (MPCFile.new (.readable reservedZero) [0, 0, 0, 0])).map
      MPCFile.getDirectory = some [] ∧
    thrownCode (MPCFile.new (.readable reservedOne) [0, 0, 0, 0]) = some .READ ∧
    built (MPCFile.new (.readable reservedOne) [0, 0, 0, 0]) = none := by
  decide

set_option maxRecDepth 100000 in
/-- C11 fails as stated: `shortPayloadFile` is the object built on `shortPayloadContainer`,
whose entry `longEntry` claims 200 bytes of a 136-byte source.  The first extraction
copies the first chunk of 128 bytes and throws `READ` on the second; the second extraction
finds the stream failed and throws `READ` with an empty sink, so the two sinks differ. -/
theorem C11_counterexample :
    MPCFile.new (.readable shortPayloadContainer) [] = .ok shortPayloadFile ∧
    ¬ (((shortPayloadFile.extractFile roomy longEntry).self.extractFile roomy longEntry).thrown
          = (shortPayloadFile.extractFile roomy longEntry).thrown ∧
        ((shortPayloadFile.extractFile roomy longEntry).self.extractFile roomy
            longEntry).outfile.map OFStream.data
          = (shortPayloadFile.extractFile roomy longEntry).outfile.map OFStream.data) := by
  have h1 : (shortPayloadFile.extractFile roomy longEntry).outfile.map OFStream.data
      = some (slice shortPayloadContainer 0 128) := by
    unfold MPCFile.extractFile
    rw [copyLoop]
    rw [copyLoop]
    decide
  have ht : (shortPayloadFile.extractFile roomy longEntry).thrown = some .READ :=
    extractFile_short roomy shortPayloadFile longEntry 1000 (by decide) (by decide) rfl rfl
      (by decide) (by decide)
  have hf := (extractFile_post_fail roomy shortPayloadFile longEntry).1 ht
  have h2 := (extractFile_failed roomy (shortPayloadFile.extractFile roomy longEntry).self
    longEntry 1000 hf rfl).2
  refine ⟨rfl, fun h => ?_⟩
  have hd := h.2
  rw [h1, h2] at hd
  revert hd
  decide

/-- C11 amended: extracting an entry a second time, directly or after another extraction
that returned normally, gives the same outcome as the first time (return, or the same
exit code); the second sink equals the first whenever the first extraction did not throw
`READ`, and is empty when it did. -/
theorem C11_reextraction (fs : SinkEnv) (self : MPCFile) (e e2 : MPCDirEntry) :
    ((self.extractFile fs e).self.extractFile fs e).thrown = (self.extractFile fs e).thrown ∧
    ((self.extractFile fs e).thrown ≠ some .READ →
      ((self.extractFile fs e).self.extractFile fs e).outfile
        = (self.extractFile fs e).outfile) ∧
    ((self.extractFile fs e).thrown = some .READ →
      ∀ o, ((self.extractFile fs e).self.extractFile fs e).outfile = some o → o.data = []) ∧
    (((self.extractFile fs e).self.extractFile fs e2).thrown = none →
      (((self.extractFile fs e).self.extractFile fs e2).self.extractFile fs e).thrown
        = (self.extractFile fs e).thrown ∧
      ((self.extractFile fs e).thrown ≠ some .READ →
        (((self.extractFile fs e).self.extractFile fs e2).self.extractFile fs e).outfile
          = (self.extractFile fs e).outfile)) := by
  have hframe := extractFile_frame fs self e
  have hpost := extractFile_post_fail fs self e
  have hread : (self.extractFile fs e).thrown = some .READ →
      ((self.extractFile fs e).self.extractFile fs e).thrown = some .READ ∧
      ∀ o, ((self.extractFile fs e).self.extractFile fs e).outfile = some o → o.data = [] := by
    intro ht
    have hf := hpost.1 ht
    cases hs : fs (sinkName e) with
    | none =>
      rw [extractFile_no_sink fs self e hs] at ht
      simp at ht
    | some room =>
      have hx := extractFile_failed fs (self.extractFile fs e).self e room hf hs
      refine ⟨hx.1, fun o ho => ?_⟩
      rw [hx.2] at ho
      injection ho with ho
      rw [← ho]
  have hsame : (self.extractFile fs e).thrown ≠ some .READ →
      ((self.extractFile fs e).self.extractFile fs e).thrown = (self.extractFile fs e).thrown ∧
      ((self.extractFile fs e).self.extractFile fs e).outfile
        = (self.extractFile fs e).outfile := by
    intro ht
    exact extractFile_congr fs _ self e hframe.2.2.2 (hpost.2 ht)
  refine ⟨?_, fun ht => (hsame ht).2, fun ht => (hread ht).2, fun h2 => ?_⟩
  · by_cases ht : (self.extractFile fs e).thrown = some .READ
    · rw [(hread ht).1, ht]
    · exact (hsame ht).1
  · have hframe2 := extractFile_frame fs (self.extractFile fs e).self e2
    have hpost2 := extractFile_post_fail fs (self.extractFile fs e).self e2
    have hne : ((self.extractFile fs e).self.extractFile fs e2).thrown ≠ some .READ := by
      rw [h2]
      simp
    have hf2 := hpost2.2 hne
    by_cases ht : (self.extractFile fs e).thrown = some .READ
    · exfalso
      have hf := hpost.1 ht
      cases hs : fs (sinkName e2) with
      | none =>
        rw [extractFile_no_sink fs _ e2 hs] at h2
        simp at h2
      | some room =>
        have hx := (extractFile_failed fs (self.extractFile fs e).self e2 room hf hs).1
        rw [hx] at h2
        simp at h2
    · have hc := extractFile_congr fs
        ((self.extractFile fs e).self.extractFile fs e2).self self e
        (by rw [hframe2.2.2.2, hframe.2.2.2]) (by rw [hf2, hpost.2 ht])
      exact ⟨hc.1, fun _ => hc.2⟩

/-- Witness of C11 amended: extracting `payloadEntry` from `oneEntryFile` twice, the first
extraction returning normally. -/
theorem C11_reextraction_witness :
    (oneEntryFile.extractFile roomy payloadEntry).thrown = none ∧
    (oneEntryFile.extractFile roomy payloadEntry).outfile.map OFStream.data
      = some [7, 8, 9] ∧
    (((oneEntryFile.extractFile roomy payloadEntry).self.extractFile roomy payloadEntry).thrown
        = (oneEntryFile.extractFile roomy payloadEntry).thrown ∧
      ((oneEntryFile.extractFile roomy payloadEntry).thrown ≠ some .READ →
        ((oneEntryFile.extractFile roomy payloadEntry).self.extractFile roomy
            payloadEntry).outfile
          = (oneEntryFile.extractFile roomy payloadEntry).outfile) ∧
      ((oneEntryFile.extractFile roomy payloadEntry).thrown = some .READ →
        ∀ o, ((oneEntryFile.extractFile roomy payloadEntry).self.extractFile roomy
            payloadEntry).outfile = some o → o.data = []) ∧
      (((oneEntryFile.extractFile roomy payloadEntry).self.extractFile roomy
            emptyEntry).thrown = none →
        (((oneEntryFile.extractFile roomy payloadEntry).self.extractFile roomy
            emptyEntry).self.extractFile roomy payloadEntry).thrown
          = (oneEntryFile.extractFile roomy payloadEntry).thrown ∧
        ((oneEntryFile.extractFile roomy payloadEntry).thrown ≠ some .READ →
          (((oneEntryFile.extractFile roomy payloadEntry).self.extractFile roomy
              emptyEntry).self.extractFile roomy payloadEntry).outfile
            = (oneEntryFile.extractFile roomy payloadEntry).outfile))) :=
  ⟨by
      rw [extractFile_ok roomy oneEntryFile payloadEntry 1000 (by decide) rfl rfl
        (Or.inr (by decide)) (by decide)],
    by
      rw [extractFile_ok roomy oneEntryFile payloadEntry 1000 (by decide) rfl rfl
        (Or.inr (by decide)) (by decide)]
      decide,
    C11_reextraction roomy oneEntryFile payloadEntry emptyEntry⟩

set_option maxRecDepth 100000 in
/-- C12 fails as stated: `twoEntryFile` is the object built on `twoEntryContainer`.
Extracting its first entry throws `READ`, and afterwards the extraction of its second
entry throws `READ` too, although that extraction returns normally, with the sink
7, 8, 9, when the first entry was never extracted. -/
theorem C12_counterexample :
    MPCFile.new (.readable twoEntryContainer) [] = .ok twoEntryFile ∧
    (twoEntryFile.extractFile roomy secondEntry).outfile.map OFStream.data
      = some [7, 8, 9] ∧
    ¬ ((twoEntryFile.extractFile roomy firstEntry).thrown ≠ none →
      ((twoEntryFile.extractFile roomy firstEntry).self.extractFile roomy
          secondEntry).thrown
        = (twoEntryFile.extractFile roomy secondEntry).thrown) := by
  have h1 : (twoEntryFile.extractFile roomy firstEntry).thrown = some .READ :=
    extractFile_short roomy twoEntryFile firstEntry 1000 (by decide) (by decide) rfl rfl
      (by decide) (by decide)
  have hf := (extractFile_post_fail roomy twoEntryFile firstEntry).1 h1
  have h2 := (extractFile_failed roomy (twoEntryFile.extractFile roomy firstEntry).self
    secondEntry 1000 hf rfl).1
  have h3 := extractFile_ok roomy twoEntryFile secondEntry 1000 (by decide) rfl rfl
    (Or.inr (by decide)) (by decide)
  refine ⟨rfl, ?_, fun h => ?_⟩
  · rw [h3]
    decide
  · have := h (by rw [h1]; simp)
    rw [h2, h3] at this
    cases this

/-- C12 amended: when `extractFile` of `e1` throws, it threw `READ` or `WRITE`, and the
directory, the header, the entry count and the content of the source are unchanged.
After a `WRITE` a later extraction of any `e2` has the outcome and the sink it would have
had without the failed call.  After a `READ` the source stream stays failed: a later
extraction throws `READ` with an empty sink, or `WRITE` when its sink cannot be opened. -/
theorem C12_failed_extraction (fs : SinkEnv) (self : MPCFile) (e1 e2 : MPCDirEntry)
    (hfail : (self.extractFile fs e1).thrown ≠ none) :
    ((self.extractFile fs e1).thrown = some .READ ∨
      (self.extractFile fs e1).thrown = some .WRITE) ∧
    (self.extractFile fs e1).self.getDirectory = self.getDirectory ∧
    (self.extractFile fs e1).self.getNumberOfDirEntries = self.getNumberOfDirEntries ∧
    (self.extractFile fs e1).self.header = self.header ∧
    (self.extractFile fs e1).self.file.content = self.file.content ∧
    ((self.extractFile fs e1).thrown = some .WRITE →
      ((self.extractFile fs e1).self.extractFile fs e2).thrown
        = (self.extractFile fs e2).thrown ∧
      ((self.extractFile fs e1).self.extractFile fs e2).outfile
        = (self.extractFile fs e2).outfile) ∧
    ((self.extractFile fs e1).thrown = some .READ →
      ((self.extractFile fs e1).self.extractFile fs e2).thrown
        = (if fs (sinkName e2) = none then some .WRITE else some .READ) ∧
      ∀ o, ((self.extractFile fs e1).self.extractFile fs e2).outfile = some o →
        o.data = []) := by
  have hframe := extractFile_frame fs self e1
  have hpost := extractFile_post_fail fs self e1
  refine ⟨?_, hframe.1, hframe.2.2.1, hframe.2.1, hframe.2.2.2, ?_, ?_⟩
  · rcases extractFile_thrown_cases fs self e1 with h | h | h
    · exact absurd h hfail
    · exact Or.inl h
    · exact Or.inr h
  · intro hw
    have hne : (self.extractFile fs e1).thrown ≠ some .READ := by
      rw [hw]
      simp
    exact extractFile_congr fs _ self e2 hframe.2.2.2 (hpost.2 hne)
  · intro hr
    have hf := hpost.1 hr
    cases hs : fs (sinkName e2) with
    | none =>
      rw [extractFile_no_sink fs _ e2 hs]
      refine ⟨by simp, fun o ho => ?_⟩
      simp at ho
    | some room =>
      have hx := extractFile_failed fs (self.extractFile fs e1).self e2 room hf hs
      refine ⟨by rw [hx.1]; simp, fun o ho => ?_⟩
      rw [hx.2] at ho
      injection ho with ho
      rw [← ho]

set_option maxRecDepth 100000 in
/-- Witness of C12 amended: the path "a.bin" of the first entry of `twoEntryContainer`
cannot be opened, so its extraction throws `WRITE`; the second entry, "b.bin", is
extracted afterwards. -/
theorem C12_failed_extraction_witness :
    (twoEntryFile.extractFile blockedA firstEntry).thrown ≠ none ∧
    (((twoEntryFile.extractFile blockedA firstEntry).thrown = some .READ ∨
        (twoEntryFile.extractFile blockedA firstEntry).thrown = some .WRITE) ∧
      (twoEntryFile.extractFile blockedA firstEntry).self.getDirectory
        = twoEntryFile.getDirectory ∧
      (twoEntryFile.extractFile blockedA firstEntry).self.getNumberOfDirEntries
        = twoEntryFile.getNumberOfDirEntries ∧
      (twoEntryFile.extractFile blockedA firstEntry).self.header = twoEntryFile.header ∧
      (twoEntryFile.extractFile blockedA firstEntry).self.file.content
        = twoEntryFile.file.content ∧
      ((twoEntryFile.extractFile blockedA firstEntry).thrown = some .WRITE →
        ((twoEntryFile.extractFile blockedA firstEntry).self.extractFile blockedA
            secondEntry).thrown
          = (twoEntryFile.extractFile blockedA secondEntry).thrown ∧
        ((twoEntryFile.extractFile blockedA firstEntry).self.extractFile blockedA
            secondEntry).outfile
          = (twoEntryFile.extractFile blockedA secondEntry).outfile) ∧
      ((twoEntryFile.extractFile blockedA firstEntry).thrown = some .READ →
        ((twoEntryFile.extractFile blockedA firstEntry).self.extractFile blockedA
            secondEntry).thrown
          = (if blockedA (sinkName secondEntry) = none then some .WRITE else some .READ) ∧
        ∀ o, ((twoEntryFile.extractFile blockedA firstEntry).self.extractFile blockedA
            secondEntry).outfile = some o → o.data = [])) :=
  ⟨by
      rw [extractFile_no_sink blockedA twoEntryFile firstEntry (by decide)]
      decide,
    C12_failed_extraction blockedA twoEntryFile firstEntry secondEntry (by
      rw [extractFile_no_sink blockedA twoEntryFile firstEntry (by decide)]
      decide)⟩

/-- C13 fails as stated: `emptyEntry` has offset 5000 and length 0, so its range ends
beyond the 99 bytes of the source, and its extraction returns normally. -/
theorem C13_counterexample :
    ¬ (oneEntryFile.file.content.length < emptyEntry.offset + emptyEntry.length →
      (oneEntryFile.extractFile roomy emptyEntry).thrown = some .READ) := by
  have hx := extractFile_ok roomy oneEntryFile emptyEntry 1000 (by decide) rfl rfl
    (Or.inl rfl) (by decide)
  rw [hx]
  decide

/-- C13 amended: on a source with a complete header, a readable entry count and a complete
directory the constructor returns, whatever offsets and lengths the entries hold, and
hands them out as stored.  On the object it built, and on any object over the same source
whose stream has not failed, extracting an entry of non-zero length whose range ends
beyond the source throws `READ`, when its sink opens and would accept the payload. -/
theorem C13_range_checked_by_reading (c uninit : List Byte) (fs : SinkEnv)
    (e : MPCDirEntry) (room : Nat)
    (h12 : 12 ≤ c.length) (hs : c.take 4 = signatureBytes)
    (hc : le32 (slice c 4 4) + 4 ≤ c.length)
    (hd : le32 (slice c 4 4) + 4 + 80 * le32 (slice c (le32 (slice c 4 4)) 4) ≤ c.length)
    (hl : e.length < 4294967296) (hpos : 0 < e.length)
    (hover : c.length < e.offset + e.length)
    (hsink : fs (sinkName e) = some room) (hroom : e.length ≤ room) :
    ∃ mpc, MPCFile.new (.readable c) uninit = .ok mpc ∧
      mpc.getDirectory = decodeDirectory c (le32 (slice c 4 4) + 4)
        (le32 (slice c (le32 (slice c 4 4)) 4)) ∧
      (mpc.extractFile fs e).thrown = some .READ ∧
      ∀ self : MPCFile, self.file.content = c → self.file.fail = false →
        (self.extractFile fs e).thrown = some .READ := by
  refine ⟨_, new_complete c uninit h12 hs hc hd, rfl, ?_, ?_⟩
  · exact extractFile_short fs _ e room hl hpos rfl hsink hroom hover
  · intro self hcont hf
    exact extractFile_short fs self e room hl hpos hf hsink hroom (by rw [hcont]; exact hover)

/-- Witness of C13 amended on `oneEntryContainer` and `overrunEntry`. -/
theorem C13_range_checked_by_reading_witness :
    (12 ≤ oneEntryContainer.length ∧ oneEntryContainer.take 4 = signatureBytes ∧
      le32 (slice oneEntryContainer 4 4) + 4 ≤ oneEntryContainer.length ∧
      le32 (slice oneEntryContainer 4 4) + 4
        + 80 * le32 (slice oneEntryContainer (le32 (slice oneEntryContainer 4 4)) 4)
        ≤ oneEntryContainer.length ∧
      overrunEntry.length < 4294967296 ∧ 0 < overrunEntry.length ∧
      oneEntryContainer.length < overrunEntry.offset + overrunEntry.length ∧
      roomy (sinkName overrunEntry) = some 1000 ∧ overrunEntry.length ≤ 1000) ∧
    ∃ mpc, MPCFile.new (.readable oneEntryContainer) [] = .ok mpc ∧
      mpc.getDirectory = decodeDirectory oneEntryContainer
        (le32 (slice oneEntryContainer 4 4) + 4)
        (le32 (slice oneEntryContainer (le32 (slice oneEntryContainer 4 4)) 4)) ∧
      (mpc.extractFile roomy overrunEntry).thrown = some .READ ∧
      ∀ self : MPCFile, self.file.content = oneEntryContainer → self.file.fail = false →
        (self.extractFile roomy overrunEntry).thrown = some .READ :=
  ⟨by decide,
    C13_range_checked_by_reading oneEntryContainer [] roomy overrunEntry 1000 (by decide)
      (by decide) (by decide) (by decide) (by decide) (by decide) (by decide) (by decide)
      (by decide)⟩

/-- C18: for a length `L` below 2^32, a good source stream that holds `L` more bytes and
an open sink that accepts them, the copy loop returns normally.  The counter `written`
passes through `128 * k` for `k = 0 .. L / 128` without wrapping and without exceeding
`L`; `entry.length - written` is `L - 128 * k`, at least 128 before the last value of `k`
and `L % 128` at the last.  The loop therefore issues `L / 128` reads of 128 bytes and one
last read of `L % 128` bytes, which add up to `L`, and the sink receives exactly the `L`
bytes read. -/
theorem C18_copy_loop_iterations (L : Nat) (hL : L < 4294967296) (file : IFStream)
    (outfile : OFStream) (buf : List Byte) (hg : file.good = true)
    (hsrc : file.pos + L ≤ file.content.length)
    (hof : outfile.failbit = false) (hoo : outfile.is_open = true)
    (hroom : outfile.data.length + L ≤ outfile.room) :
    (copyLoop L 0 file outfile buf).thrown = none ∧
    (copyLoop L 0 file outfile buf).file.reads
      = file.reads ++ (List.replicate (L / 128) 128 ++ [L % 128]) ∧
    (List.replicate (L / 128) 128 ++ [L % 128]).sum = L ∧
    (copyLoop L 0 file outfile buf).outfile.data
      = outfile.data ++ slice file.content file.pos L ∧
    (slice file.content file.pos L).length = L ∧
    ∀ k, k ≤ L / 128 →
      128 * k ≤ L ∧ 128 * k % 4294967296 = 128 * k ∧
      u32sub L (128 * k) = L - 128 * k ∧
      (k < L / 128 → 128 ≤ u32sub L (128 * k)) ∧
      (k = L / 128 → u32sub L (128 * k) = L % 128) ∧
      ∃ bk, copyLoop L 0 file outfile buf =
        copyLoop L (128 * k)
          { file with pos := file.pos + 128 * k,
                      reads := file.reads ++ List.replicate k 128 }
          { outfile with data := outfile.data ++ slice file.content file.pos (128 * k) }
          bk := by
  have hx := copyLoop_ok L hL L 0 file outfile buf (by omega) (by omega) hg (Or.inr hsrc)
    hof hoo hroom
  refine ⟨by rw [hx], by rw [hx], ?_, by rw [hx], slice_length _ _ _ hsrc, ?_⟩
  · rw [sum_chunks]
    omega
  · intro k hk
    have hkl : 128 * k ≤ L := by omega
    have hsub : u32sub L (128 * k) = L - 128 * k := u32sub_eq L (128 * k) hL hkl
    refine ⟨hkl, Nat.mod_eq_of_lt (by omega), hsub, ?_, ?_, ?_⟩
    · intro hlt
      rw [hsub]
      omega
    · intro heq
      rw [hsub]
      omega
    · exact copyLoop_unroll L hL file outfile buf hg hsrc hof hoo hroom k hkl

set_option maxRecDepth 100000 in
/-- Witness of C18: copying 300 bytes from `sampleSource` to `sampleSink`. -/
theorem C18_copy_loop_iterations_witness :
    ((300 : Nat) < 4294967296 ∧ sampleSource.good = true ∧
      sampleSource.pos + 300 ≤ sampleSource.content.length ∧
      sampleSink.failbit = false ∧ sampleSink.is_open = true ∧
      sampleSink.data.length + 300 ≤ sampleSink.room) ∧
    (copyLoop 300 0 sampleSource sampleSink []).thrown = none ∧
    (copyLoop 300 0 sampleSource sampleSink []).file.reads
      = sampleSource.reads ++ (List.replicate (300 / 128) 128 ++ [300 % 128]) ∧
    (List.replicate (300 / 128) 128 ++ [300 % 128]).sum = 300 ∧
    (copyLoop 300 0 sampleSource sampleSink []).outfile.data
      = sampleSink.data ++ slice sampleSource.content sampleSource.pos 300 ∧
    (slice sampleSource.content sampleSource.pos 300).length = 300 ∧
    ∀ k, k ≤ 300 / 128 →
      128 * k ≤ 300 ∧ 128 * k % 4294967296 = 128 * k ∧
      u32sub 300 (128 * k) = 300 - 128 * k ∧
      (k < 300 / 128 → 128 ≤ u32sub 300 (128 * k)) ∧
      (k = 300 / 128 → u32sub 300 (128 * k) = 300 % 128) ∧
      ∃ bk, copyLoop 300 0 sampleSource sampleSink [] =
        copyLoop 300 (128 * k)
          { sampleSource with pos := sampleSource.pos + 128 * k,
                              reads := sampleSource.reads ++ List.replicate k 128 }
          { sampleSink with
              data := sampleSink.data ++ slice sampleSource.content sampleSource.pos (128 * k) }
          bk :=
  ⟨by decide,
    C18_copy_loop_iterations 300 (by decide) sampleSource sampleSink [] (by decide)
      (by decide) (by decide) (by decide) (by decide)⟩

end mpcextract
